import Mathlib

/-!
A verification development for the repo-lint core: a shallow embedding of
the glob matcher (`src/core/matcher.ts`), the naming-case validator
(`src/core/case.ts`), the scanner's per-entry classification loop
(`src/core/scanner.ts`), the rule engine and layout validator
(`src/rules/*.ts`), the matcher cache, and the cache fingerprint
(`computeFileHash`), together with theorems settling the specification
claims about them.

Modeling conventions:
* TypeScript strings are Lean `String`s; all character-level work is done on
  `String.data` (`List Char`).  JavaScript string indexing/length is by
  UTF-16 code unit; for the ASCII paths and patterns involved here this
  coincides with the per-`Char` model.
* Unicode NFC normalization (`String.prototype.normalize("NFC")`) is
  modeled as the identity; the claims involve only ASCII data, on which NFC
  is the identity.
* `Effect`-typed functions are state-passing pure functions; the two `Ref`s
  of the check context (violations, matched set) become an explicit state
  record threaded through the engine.
* The external `picomatch` library (with options `dot: true, bash: false`)
  is modeled from the specification of its semantics: `*`/`?`/`[...]`
  match within a single path segment, a `**` segment matches zero or more
  whole segments, and a leading `!` negates the whole pattern.
-/

namespace RepoLint

/-! ## Character-level string helpers (JS string operations) -/

/-- Characters of a string. -/
def chars (s : String) : List Char := s.data

/-- Build a string back from characters. -/
def ofChars (l : List Char) : String := ⟨l⟩

/-- JS `s.startsWith(p)`. -/
def startsWithS (s p : String) : Bool := p.data.isPrefixOf s.data

/-- JS `s.slice(n)` (drop the first `n` code units). -/
def dropS (s : String) (n : Nat) : String := ofChars (s.data.drop n)

/-- JS `s.length`. -/
def lenS (s : String) : Nat := s.data.length

/-- JS `s.endsWith(p)`. -/
def endsWithS (s p : String) : Bool := p.data.reverse.isPrefixOf s.data.reverse

/-- JS `s.includes(c)` for a single character. -/
def containsC (s : String) (c : Char) : Bool := s.data.contains c

/-- JS `s.split("/")` on the character level.  `"".split("/")` is `[""]`,
a leading or trailing `/` contributes an empty segment. -/
def splitCharsOnSlash : List Char → List (List Char)
  | [] => [[]]
  | '/' :: rest => [] :: splitCharsOnSlash rest
  | c :: rest =>
    match splitCharsOnSlash rest with
    | [] => [[c]]
    | s :: ss => (c :: s) :: ss

/-- JS `s.split("/")`. -/
def splitSegs (s : String) : List String := (splitCharsOnSlash s.data).map ofChars

/-- First element of `s.split("/")` (JS `s.split("/")[0]`, which always exists). -/
def firstSeg (s : String) : String := (splitSegs s).headD ""

/-! ## Path normalization (`normalizePath` in `src/core/matcher.ts`)

`p.normalize("NFC").replace(/\\/g, "/").replace(/\/+/g, "/").replace(/\/$/, "")`.
NFC is modeled as the identity (ASCII data). -/

/-- Replace every backslash by a forward slash (`.replace(/\\/g, "/")`). -/
def backslashToSlash (l : List Char) : List Char :=
  l.map (fun c => if c = '\\' then '/' else c)

/-- Collapse runs of slashes to a single slash (`.replace(/\/+/g, "/")`). -/
def collapseSlashes : List Char → List Char
  | [] => []
  | '/' :: rest => '/' :: collapseSlashes (rest.dropWhile (· = '/'))
  | c :: rest => c :: collapseSlashes rest
termination_by l => l.length
decreasing_by
  · have := (List.dropWhile_sublist (l := rest) (p := (· = '/'))).length_le
    simp only [List.length_cons]
    omega
  · simp only [List.length_cons]
    omega

/-- Remove a single trailing slash (`.replace(/\/$/, "")`). -/
def stripTrailingSlashChars (l : List Char) : List Char :=
  match l.getLast? with
  | some '/' => l.dropLast
  | _ => l

/-- `normalizePath` from `src/core/matcher.ts` (NFC modeled as identity). -/
def normalizePath (p : String) : String :=
  ofChars (stripTrailingSlashChars (collapseSlashes (backslashToSlash p.data)))

/-! ## Glob matching (model of the external `picomatch` library)

Modelled from the spec: `picomatch(pattern, { dot: true, bash: false })` is
an external dependency, not code of this repository; its semantics are
specified in §4.1 of the specification: `*` matches within one path
segment only, `**` (as a whole segment) matches zero or more full
segments, `?` matches exactly one character, character classes `[...]`
(with ranges and `^`/`!` negation) are supported, dotfiles are matched by
default, and a leading `!` negates the whole pattern.  Brace groups are
expanded before reaching the matcher by `expandBraces` below. -/

/-- Parse the members of a character class after `[` (and after an optional
negation marker), up to the closing `]`.  Members are ranges `(lo, hi)`;
a single character `c` is the range `(c, c)`.  Returns the members and the
number of characters consumed (including the closing `]`), or `none` when
the class is unterminated. -/
def classMembers : List Char → Option (List (Char × Char) × Nat)
  | [] => none
  | ']' :: _ => some ([], 1)
  | a :: '-' :: b :: rest =>
    if b = ']' then some ([(a, a), ('-', '-')], 3)
    else
      match classMembers rest with
      | none => none
      | some (ms, n) => some ((a, b) :: ms, n + 3)
  | c :: rest =>
    match classMembers rest with
    | none => none
    | some (ms, n) => some ((c, c) :: ms, n + 1)

/-- Parse a full character class body after `[`: optional `^`/`!` negation
marker, then members up to `]`.  Returns the negation flag, the members,
and the number of characters consumed. -/
def readClass (ps : List Char) : Option (Bool × List (Char × Char) × Nat) :=
  match ps with
  | '^' :: rest => (classMembers rest).map (fun mn => (true, mn.1, mn.2 + 1))
  | '!' :: rest => (classMembers rest).map (fun mn => (true, mn.1, mn.2 + 1))
  | _ => (classMembers ps).map (fun mn => (false, mn.1, mn.2))

/-- Is `c` inside one of the ranges? -/
def inClass (ranges : List (Char × Char)) (c : Char) : Bool :=
  ranges.any (fun r => r.1 ≤ c && c ≤ r.2)

/-- Single-segment glob matching over characters: `*` matches any run of
characters (within the segment), `?` matches one character, `[...]` a
character class; an unterminated `[` is a literal. -/
def globChars : List Char → List Char → Bool
  | [], [] => true
  | [], _ :: _ => false
  | '*' :: ps, cs =>
    globChars ps cs ||
      (match cs with
       | [] => false
       | _ :: cs' => globChars ('*' :: ps) cs')
  | '?' :: _, [] => false
  | '?' :: ps, _ :: cs => globChars ps cs
  | '[' :: _, [] => false
  | '[' :: ps, c :: cs =>
    match readClass ps with
    | some (neg, ranges, n) => (inClass ranges c != neg) && globChars (ps.drop n) cs
    | none => ('[' = c) && globChars ps cs
  | _ :: _, [] => false
  | p :: ps, c :: cs => (p = c) && globChars ps cs
termination_by ps cs => ps.length + cs.length
decreasing_by
  all_goals simp only [List.length_cons]
  · omega
  · omega
  · omega
  · have := List.length_drop n ps
    have := Nat.sub_le ps.length n
    omega
  · omega
  · omega

/-- Single-segment glob match on strings. -/
def segMatch (p s : String) : Bool := globChars p.data s.data

/-- Segment-list glob matching: a `**` pattern segment matches zero or more
whole path segments; every other pattern segment must match exactly one
path segment via `segMatch`. -/
def globSegs : List String → List String → Bool
  | [], [] => true
  | [], _ :: _ => false
  | p :: ps, [] => if p = "**" then globSegs ps [] else false
  | p :: ps, s :: ss =>
    if p = "**" then globSegs ps (s :: ss) || globSegs (p :: ps) ss
    else segMatch p s && globSegs ps ss
termination_by ps ss => ps.length + ss.length
decreasing_by
  all_goals simp only [List.length_cons]
  · omega
  · omega
  · omega
  · omega

/-- Model of a compiled `picomatch` matcher applied to the segments of a
normalized path: a leading `!` negates the whole pattern. -/
def picomatchModel (pattern : String) (segs : List String) : Bool :=
  if startsWithS pattern "!" then !(globSegs (splitSegs (dropS pattern 1)) segs)
  else globSegs (splitSegs pattern) segs

/-! ## Pattern normalization and the matcher API (`src/core/matcher.ts`) -/

/-- The metacharacter test `/[*?[\]]/.test(s)` from `normalizePattern`. -/
def hasGlobChar (s : String) : Bool :=
  s.data.any (fun c => c = '*' || c = '?' || c = '[' || c = ']')

/-- Remove one trailing slash from a pattern (`.replace(/\/$/, "")`). -/
def stripTrailingSlashS (s : String) : String :=
  if endsWithS s "/" then ofChars s.data.dropLast else s

/-- `normalizePattern` from `src/core/matcher.ts`: strip one trailing slash,
then auto-expand a basename-only pattern (no `/`) to `**/pattern`,
provided it contains a glob metacharacter and does not already start with
`**`; a leading `!` negation marker is carried around the expansion.
NFC is modeled as the identity. -/
def normalizePattern (pattern : String) : String :=
  let normalized := stripTrailingSlashS pattern
  if containsC normalized '/' then normalized
  else
    let isNegation := startsWithS normalized "!"
    let pwn := if isNegation then dropS normalized 1 else normalized
    if startsWithS pwn "**" then normalized
    else if hasGlobChar pwn then
      (if isNegation then "!**/" ++ pwn else "**/" ++ pwn)
    else normalized

/-- `picomatch(normalizedPattern, MATCH_OPTIONS)` applied to a path string. -/
def rawCompile (normalizedPattern : String) : String → Bool :=
  fun path => picomatchModel normalizedPattern (splitSegs path)

/-- `getCachedMatcher` without the cache: the empty pattern only matches the
empty path; otherwise compile the normalized pattern.  (Cache transparency
is proved separately: on a well-formed cache the cached variant returns
exactly this function.) -/
def compiledMatcher (pattern : String) : String → Bool :=
  if pattern = "" then fun path => path = ""
  else rawCompile (normalizePattern pattern)

/-- The matcher-source abstraction: everything in the rule engine obtains
compiled matchers through a function of this type (the source obtains them
through `getCachedMatcher`, which reads the module-level cache). -/
abbrev GM := String → String → Bool

/-- `matches(path, pattern)` from `src/core/matcher.ts`, parametrized by the
matcher source `gm`. -/
def matchesG (gm : GM) (path pattern : String) : Bool :=
  gm pattern (normalizePath path)

/-- `createMatcher(patterns)` from `src/core/matcher.ts`: empty list never
matches, otherwise any pattern may match the normalized path. -/
def createMatcherG (gm : GM) (patterns : List String) (path : String) : Bool :=
  if patterns = [] then false
  else patterns.any (fun p => gm p (normalizePath path))

/-- `matchesAny(path, patterns)` from `src/core/matcher.ts`. -/
def matchesAnyG (gm : GM) (path : String) (patterns : List String) : Bool :=
  !patterns.isEmpty && createMatcherG gm patterns path

/-- Find the first brace group in a pattern: returns the text before `{`,
the group body, and the text after `}`.  Mirrors the regex
`/\x7b([^\x7d]+)\x7d/` (first `{`, a nonempty body without `}`, then `}`). -/
def findBrace : List Char → Option (List Char × List Char × List Char)
  | [] => none
  | c :: rest =>
    if c = Char.ofNat 123 then
      let body := rest.takeWhile (fun d => d ≠ Char.ofNat 125)
      let after := rest.drop body.length
      match after with
      | [] => none
      | _ :: afterBrace => if body.isEmpty then none else some ([], body, afterBrace)
    else
      match findBrace rest with
      | none => none
      | some (pre, body, post) => some (c :: pre, body, post)

/-- JS `body.split(",")`. -/
def splitOnComma (l : List Char) : List (List Char) :=
  match l with
  | [] => [[]]
  | ',' :: rest => [] :: splitOnComma rest
  | c :: rest =>
    match splitOnComma rest with
    | [] => [[c]]
    | s :: ss => (c :: s) :: ss

/-- `expandBraces` from `src/core/matcher.ts`: expand one level of a brace
group `a{b,c}d` into `abd`, `acd`; a pattern without a (nonempty) brace
group expands to itself.  (The nested-brace validation error path is not
modeled; no claim exercises nested braces.) -/
def expandBraces (pattern : String) : List String :=
  match findBrace pattern.data with
  | none => [pattern]
  | some (pre, body, post) =>
    (splitOnComma body).map (fun opt => ofChars (pre ++ opt ++ post))

/-- `matchesWithBraces(name, pattern)` from `src/core/matcher.ts`,
parametrized by the matcher source. -/
def matchesWithBracesG (gm : GM) (name pattern : String) : Bool :=
  (expandBraces pattern).any (fun p => gm p (normalizePath name))

/-- `getBasename` from `src/core/matcher.ts`: last segment of the
normalized path, `""` for an empty split. -/
def getBasename (p : String) : String :=
  (splitSegs (normalizePath p)).getLastD ""

/-- `getParent` from `src/core/matcher.ts`. -/
def getParent (p : String) : String :=
  ofChars (String.intercalate "/" ((splitSegs (normalizePath p)).dropLast)).data

/-- Pure instantiation of the matcher source: every pattern is compiled
directly (this is what `getCachedMatcher` computes on a cache miss, and —
as proved below — also what it returns on a well-formed cache hit). -/
def pureGM : GM := fun pattern => compiledMatcher pattern

/-- `matches(path, pattern)` with the pure matcher source (`matches` itself
is a reserved token in Lean, hence the `P` suffix). -/
def matchesP (path pattern : String) : Bool := matchesG pureGM path pattern

/-- `matchesAny(path, patterns)` with the pure matcher source. -/
def matchesAny (path : String) (patterns : List String) : Bool :=
  matchesAnyG pureGM path patterns

/-- `matchesWithBraces(name, pattern)` with the pure matcher source. -/
def matchesWithBraces (name pattern : String) : Bool :=
  matchesWithBracesG pureGM name pattern

/-! ## Case-style validation (`src/core/case.ts`) -/

/-- The five case styles of `src/types/index.ts`. -/
inductive CaseStyle where
  | kebab | snake | camel | pascal | any
deriving DecidableEq, Repr

def isLowerAlpha (c : Char) : Bool := 'a' ≤ c && c ≤ 'z'

def isUpperAlpha (c : Char) : Bool := 'A' ≤ c && c ≤ 'Z'

def isDigitCh (c : Char) : Bool := '0' ≤ c && c ≤ '9'

/-- The character class `[a-z0-9]`. -/
def lowerAlnum (c : Char) : Bool := isLowerAlpha c || isDigitCh c

/-- The character class `[a-zA-Z0-9]`. -/
def anyAlnum (c : Char) : Bool := isLowerAlpha c || isUpperAlpha c || isDigitCh c

/-- Generic JS `s.split(sep)` on characters. -/
def splitOnChar (sep : Char) : List Char → List (List Char)
  | [] => [[]]
  | c :: rest =>
    if c = sep then [] :: splitOnChar sep rest
    else
      match splitOnChar sep rest with
      | [] => [[c]]
      | s :: ss => (c :: s) :: ss

/-- The group `[a-z][a-z0-9]*`. -/
def lowerStem : List Char → Bool
  | [] => false
  | c :: rest => isLowerAlpha c && rest.all lowerAlnum

/-- A nonempty `[a-z0-9]+` group. -/
def lowerGroup (l : List Char) : Bool := !l.isEmpty && l.all lowerAlnum

/-- A nonempty `[a-zA-Z0-9]+` group. -/
def alnumGroup (l : List Char) : Bool := !l.isEmpty && l.all anyAlnum

/-- The regex `^[a-z][a-z0-9]*(SEP[a-z0-9]+)*(\.[a-z0-9]+)*$` (with `SEP`
being `-` for `KEBAB_REGEX` and `_` for `SNAKE_REGEX`), expressed by
splitting on `.` and then the stem on the separator. -/
def sepCaseCheck (sep : Char) (name : String) : Bool :=
  match splitOnChar '.' name.data with
  | [] => false
  | stem :: dotParts =>
    (match splitOnChar sep stem with
     | [] => false
     | h :: t => lowerStem h && t.all lowerGroup)
    && dotParts.all lowerGroup

/-- The regexes `CAMEL_REGEX` / `PASCAL_REGEX`:
`^X[a-zA-Z0-9]*(\.[a-zA-Z0-9]+)*$` where `X` constrains the first
character. -/
def humpCaseCheck (firstOk : Char → Bool) (name : String) : Bool :=
  match splitOnChar '.' name.data with
  | [] => false
  | stem :: dotParts =>
    (match stem with
     | [] => false
     | c :: rest => firstOk c && rest.all anyAlnum)
    && dotParts.all alnumGroup

/-- `isHiddenFile` from `src/core/case.ts`. -/
def isHiddenFile (name : String) : Bool := startsWithS name "."

/-- `validateCase` from `src/core/case.ts`: hidden (dot-prefixed) names are
exempt; otherwise the style's regex decides. -/
def validateCase (name : String) (style : CaseStyle) : Bool :=
  if isHiddenFile name then true
  else
    match style with
    | .kebab => sepCaseCheck '-' name
    | .snake => sepCaseCheck '_' name
    | .camel => humpCaseCheck isLowerAlpha name
    | .pascal => humpCaseCheck isUpperAlpha name
    | .any => true

/-- Split off the final extension: `base = name.replace(/\.[^.]+$/, "")`,
`ext = name.slice(base.length)`. -/
def splitExt (name : String) : String × String :=
  let rev := name.data.reverse
  let extRev := rev.takeWhile (fun c => c ≠ '.')
  if extRev.length < rev.length && !extRev.isEmpty then
    (ofChars (name.data.take (rev.length - extRev.length - 1)),
     ofChars (name.data.drop (rev.length - extRev.length - 1)))
  else (name, "")

/-- `.replace(/([a-z])([A-Z])/g, "$1" + sep + "$2")`: insert a separator
between a lowercase letter followed by an uppercase letter, scanning
left to right without overlap. -/
def insertSeps (sep : Char) : List Char → List Char
  | a :: b :: rest =>
    if isLowerAlpha a && isUpperAlpha b then a :: sep :: b :: insertSeps sep rest
    else a :: insertSeps sep (b :: rest)
  | l => l

/-- `.replace(/[-_](.)/g, (_, c) => c.toUpperCase())`. -/
def camelize : List Char → List Char
  | c :: d :: rest =>
    if c = '-' || c = '_' then d.toUpper :: camelize rest
    else c :: camelize (d :: rest)
  | l => l

def lowerFirst : List Char → List Char
  | [] => []
  | c :: rest => c.toLower :: rest

def upperFirst : List Char → List Char
  | [] => []
  | c :: rest => c.toUpper :: rest

def toKebab (name : String) : String :=
  let be := splitExt name
  ofChars (((insertSeps '-' be.1.data).map
    (fun c => if c = '_' then '-' else c)).map Char.toLower) ++ be.2

def toSnake (name : String) : String :=
  let be := splitExt name
  ofChars (((insertSeps '_' be.1.data).map
    (fun c => if c = '-' then '_' else c)).map Char.toLower) ++ be.2

def toCamel (name : String) : String :=
  let be := splitExt name
  ofChars (lowerFirst (camelize be.1.data)) ++ be.2

def toPascal (name : String) : String :=
  let be := splitExt name
  ofChars (upperFirst (camelize be.1.data)) ++ be.2

/-- `suggestCase` from `src/core/case.ts`. -/
def suggestCase (name : String) (style : CaseStyle) : String :=
  match style with
  | .kebab => toKebab name
  | .snake => toSnake name
  | .camel => toCamel name
  | .pascal => toPascal name
  | .any => name

/-- `getCaseName` from `src/core/case.ts`. -/
def getCaseName (style : CaseStyle) : String :=
  match style with
  | .kebab => "kebab-case"
  | .snake => "snake_case"
  | .camel => "camelCase"
  | .pascal => "PascalCase"
  | .any => "any case"

/-! ## Data model (`src/types/index.ts`) -/

inductive Severity where
  | error | warning
deriving DecidableEq, Repr

inductive Mode where
  | strict | warn
deriving DecidableEq, Repr

/-- A violation (`src/types/index.ts`); the unused `line`/`column` fields
are omitted (nothing in the engine sets them). -/
structure Violation where
  path : String
  rule : String
  message : String
  severity : Severity
  expected : Option String := none
  got : Option String := none
  suggestions : Option (List String) := none
deriving DecidableEq, Repr

/-- A scanned filesystem entry (`src/types/index.ts`).  `size`/`mtimeMs`
are JS numbers; the engine only stringifies them, modeled as `Nat`. -/
structure FileEntry where
  path : String
  relativePath : String
  isDirectory : Bool
  isSymlink : Bool
  depth : Nat
  mtimeMs : Option Nat := none
  size : Option Nat := none
deriving DecidableEq, Repr

/-- The node kinds of the layout DSL. -/
inductive NodeType where
  | file | dir | param | many | recursive | either
deriving DecidableEq, Repr

/-- A layout tree node (`src/types/index.ts`).  TS optional booleans are
`Bool` with default `false` (only their truthiness is used); `children` is
a `Record`, modeled as an insertion-ordered association list; `case` is a
reserved token in Lean, hence `caseStyle`.  The unused `maxFiles` field is
omitted. -/
inductive LayoutNode where
  | mk
    (type : Option NodeType)
    (pattern : Option String)
    (caseStyle : Option CaseStyle)
    (optional required strict : Bool)
    (maxDepth min max : Option Nat)
    (children : List (String × LayoutNode))
    (child : Option LayoutNode)
    (variants : List LayoutNode)

def LayoutNode.type : LayoutNode → Option NodeType
  | .mk t _ _ _ _ _ _ _ _ _ _ _ => t

def LayoutNode.pattern : LayoutNode → Option String
  | .mk _ p _ _ _ _ _ _ _ _ _ _ => p

def LayoutNode.caseStyle : LayoutNode → Option CaseStyle
  | .mk _ _ c _ _ _ _ _ _ _ _ _ => c

def LayoutNode.optional : LayoutNode → Bool
  | .mk _ _ _ o _ _ _ _ _ _ _ _ => o

def LayoutNode.required : LayoutNode → Bool
  | .mk _ _ _ _ r _ _ _ _ _ _ _ => r

def LayoutNode.strict : LayoutNode → Bool
  | .mk _ _ _ _ _ s _ _ _ _ _ _ => s

def LayoutNode.maxDepth : LayoutNode → Option Nat
  | .mk _ _ _ _ _ _ d _ _ _ _ _ => d

def LayoutNode.min : LayoutNode → Option Nat
  | .mk _ _ _ _ _ _ _ m _ _ _ _ => m

def LayoutNode.max : LayoutNode → Option Nat
  | .mk _ _ _ _ _ _ _ _ m _ _ _ => m

def LayoutNode.children : LayoutNode → List (String × LayoutNode)
  | .mk _ _ _ _ _ _ _ _ _ c _ _ => c

def LayoutNode.child : LayoutNode → Option LayoutNode
  | .mk _ _ _ _ _ _ _ _ _ _ c _ => c

def LayoutNode.variants : LayoutNode → List LayoutNode
  | .mk _ _ _ _ _ _ _ _ _ _ _ v => v

/-- A plain file node with all attributes defaulted (`{}` in a config). -/
def plainNode : LayoutNode :=
  .mk none none none false false false none none none [] none []

/-- A mirror rule (`src/types/index.ts`). -/
structure MirrorRule where
  source : String
  target : String
  pattern : Option String := none
deriving DecidableEq, Repr

/-- A match rule (`src/types/index.ts`); `case` is a reserved token in
Lean, hence `caseStyle`. -/
structure MatchRule where
  pattern : String
  exclude : Option (List String) := none
  require : Option (List String) := none
  allow : Option (List String) := none
  forbid : Option (List String) := none
  strict : Bool := false
  caseStyle : Option CaseStyle := none
deriving DecidableEq, Repr

/-- The rule set (`src/types/index.ts`).  `dependencies` values may be a
single string or an array in TS; the single-string form is normalized to a
one-element list by `checkDependencies` itself, so values are modeled as
lists.  `when` maps a trigger name to its `requires` list.  `match` is a
reserved token in Lean, hence `matchRules`.  The unused `boundaries` field
is omitted. -/
structure Rules where
  forbidPaths : Option (List String) := none
  forbidNames : Option (List String) := none
  ignorePaths : Option (List String) := none
  dependencies : Option (List (String × List String)) := none
  mirror : Option (List MirrorRule) := none
  whenRules : Option (List (String × List String)) := none
  matchRules : Option (List MatchRule) := none
deriving DecidableEq, Repr

/-- The configuration fields consulted by the rule engine
(`src/types/index.ts`); scan tuning, presets and `extends` are resolved
before `check` runs and are not modeled. -/
structure RepoLintConfig where
  mode : Option Mode := none
  layout : Option LayoutNode := none
  rules : Option Rules := none

/-! ## Check context and state (`src/rules/context.ts`) -/

/-- The immutable part of the check context: configuration, filtered entry
list, and the file/directory path sets (JS `Set`s, modeled as lists with
membership). -/
structure CheckCtx where
  config : RepoLintConfig
  files : List FileEntry
  fileSet : List String
  dirSet : List String

/-- The mutable part of the check context: the two `Ref`s (violations list
and matched set) as a state record.  The matched set is a JS `Set` built
by `new Set([...set, path])`: insertion-ordered, ignoring duplicates. -/
structure EngSt where
  violations : List Violation
  matched : List String
deriving DecidableEq, Repr

/-- `getSeverity` from `src/rules/context.ts`. -/
def getSeverity (mode : Option Mode) : Severity :=
  if mode = some .strict then .error else .warning

/-- `addViolation` from `src/rules/context.ts` with all optional violation
fields passed explicitly: append with the severity derived from the
configured mode. -/
def addViolationFull (ctx : CheckCtx) (st : EngSt) (path rule message : String)
    (expected got : Option String) (suggestions : Option (List String)) : EngSt :=
  { st with violations := st.violations ++
      [⟨path, rule, message, getSeverity ctx.config.mode, expected, got, suggestions⟩] }

/-- `addViolation` for the common case without optional fields. -/
def addViolation (ctx : CheckCtx) (st : EngSt) (path rule message : String) : EngSt :=
  addViolationFull ctx st path rule message none none none

/-- `addWarning` from `src/rules/context.ts`: append with severity
`warning` regardless of mode. -/
def addWarning (st : EngSt) (path rule message : String) : EngSt :=
  { st with violations := st.violations ++
      [⟨path, rule, message, .warning, none, none, none⟩] }

/-- `markMatched` from `src/rules/context.ts`. -/
def markMatched (st : EngSt) (path : String) : EngSt :=
  if st.matched.contains path then st
  else { st with matched := st.matched ++ [path] }

/-- `isMatched` from `src/rules/context.ts`. -/
def isMatched (st : EngSt) (path : String) : Bool := st.matched.contains path

/-- `createContext` from `src/rules/context.ts`. -/
def createContext (config : RepoLintConfig) (files : List FileEntry) : CheckCtx :=
  { config := config
    files := files
    fileSet := (files.filter (fun f => !f.isDirectory)).map (·.relativePath)
    dirSet := (files.filter (fun f => f.isDirectory)).map (·.relativePath) }

/-- `config.rules?.FIELD ?? []` -/
def rulesList (config : RepoLintConfig) (field : Rules → Option (List α)) : List α :=
  (config.rules.bind field).getD []

/-! ## Simple cross-cutting rules -/

/-- `checkForbidPaths` from `src/rules/forbid-paths.ts`. -/
def checkForbidPaths (gm : GM) (ctx : CheckCtx) (st : EngSt) : EngSt :=
  let patterns := rulesList ctx.config Rules.forbidPaths
  if patterns.isEmpty then st
  else
    ctx.files.foldl (fun st f =>
      if matchesAnyG gm f.relativePath patterns then
        addViolation ctx st f.relativePath "forbidPaths" "path matches forbidden pattern"
      else st) st

/-- `checkForbidNames` from `src/rules/forbid-names.ts`. -/
def checkForbidNames (ctx : CheckCtx) (st : EngSt) : EngSt :=
  let names := rulesList ctx.config Rules.forbidNames
  if names.isEmpty then st
  else
    ctx.files.foldl (fun st f =>
      let basename := getBasename f.relativePath
      if names.contains basename then
        addViolation ctx st f.relativePath "forbidNames"
          ("filename \"" ++ basename ++ "\" is forbidden")
      else st) st

/-- `checkDependencies` from `src/rules/dependencies.ts`. -/
def checkDependencies (gm : GM) (ctx : CheckCtx) (st : EngSt) : EngSt :=
  match ctx.config.rules.bind Rules.dependencies with
  | none => st
  | some deps =>
    deps.foldl (fun st dep =>
      let sourceFiles := ctx.files.filter (fun f => matchesG gm f.relativePath dep.1)
      if sourceFiles.length > 0 then
        dep.2.foldl (fun st targetPattern =>
          let hasTarget := ctx.files.any (fun f => matchesG gm f.relativePath targetPattern)
          if !hasTarget then
            addViolation ctx st dep.1 "dependencies"
              ("files matching \"" ++ dep.1 ++ "\" require \"" ++ targetPattern ++
                "\" to exist")
          else st) st
      else st) st

/-! ## Mirror rule (`src/rules/mirror.ts`) -/

/-- Single-segment matching for the escaped-regex branch of
`extractPathSegments`: every character is literal except `*`, which
becomes `(.*)`. -/
def starMatch : List Char → List Char → Bool
  | [], [] => true
  | [], _ :: _ => false
  | '*' :: ps, cs =>
    starMatch ps cs ||
      (match cs with
       | [] => false
       | _ :: cs' => starMatch ('*' :: ps) cs')
  | _ :: _, [] => false
  | p :: ps, c :: cs => (p = c) && starMatch ps cs
termination_by ps cs => ps.length + cs.length
decreasing_by
  all_goals simp only [List.length_cons]
  · omega
  · omega
  · omega

/-- Association-list lookup modeling `Map.get`. -/
def alookup (l : List (String × String)) (k : String) : Option String :=
  (l.find? (fun p => p.1 = k)).map (·.2)

/-- The loop of `extractPathSegments` from `src/rules/mirror.ts`:
`total` is `patternParts.length`, `i` the pattern index, `pathIdx` the
path index; `acc` accumulates the `$i → segment` map. -/
def extractLoop (pathParts : List String) (total : Nat) :
    List String → Nat → Nat → List (String × String) → Option (List (String × String))
  | [], _, _, acc => some acc
  | pp :: rest, i, pathIdx, acc =>
    if pp = "*" then
      match pathParts.get? pathIdx with
      | none => none
      | some pathPart =>
        extractLoop pathParts total rest (i + 1) (pathIdx + 1)
          (acc ++ [("$" ++ toString i, pathPart)])
    else if pp = "**" then
      let remaining : Int := (total : Int) - i - 1
      let consumed : Int := (pathParts.length : Int) - remaining - pathIdx
      if consumed < 1 then none
      else
        let cN := consumed.toNat
        let segment := String.intercalate "/" ((pathParts.drop pathIdx).take cN)
        extractLoop pathParts total rest (i + 1) (pathIdx + cN)
          (acc ++ [("$" ++ toString i, segment)])
    else if containsC pp '*' then
      match pathParts.get? pathIdx with
      | none => none
      | some pathPart =>
        if starMatch pp.data pathPart.data then
          extractLoop pathParts total rest (i + 1) (pathIdx + 1)
            (acc ++ [("$" ++ toString i, pathPart)])
        else none
    else
      match pathParts.get? pathIdx with
      | some s => if s = pp then extractLoop pathParts total rest (i + 1) (pathIdx + 1) acc
                  else none
      | none => none

/-- `extractPathSegments` from `src/rules/mirror.ts`. -/
def extractPathSegments (path pattern : String) : Option (List (String × String)) :=
  let pathParts := splitSegs path
  let patternParts := splitSegs pattern
  if pathParts.length < patternParts.length then none
  else extractLoop pathParts patternParts.length patternParts 0 0 []

/-- Replace the first occurrence of `pat` in `s` by `rep`
(JS `String.prototype.replace` with a string pattern). -/
def replaceFirstChars (s pat rep : List Char) : List Char :=
  if pat.isPrefixOf s then rep ++ s.drop pat.length
  else
    match s with
    | [] => []
    | c :: rest => c :: replaceFirstChars rest pat rep

def replaceFirst (s pat rep : String) : String :=
  ofChars (replaceFirstChars s.data pat.data rep.data)

/-- The extension rewrite of a mirror `pattern` such as `"*.ts -> *.test.ts"`
applied to a matched segment. -/
def applyFilePattern (filePattern : Option String) (segment : String) : String :=
  match filePattern with
  | none => segment
  | some fp =>
    let parts := fp.splitOn " -> "
    match parts.get? 0, parts.get? 1 with
    | some fromPat, some toPat =>
      if fromPat ≠ "" && toPat ≠ "" then
        replaceFirst segment (replaceFirst fromPat "*" "") (replaceFirst toPat "*" "")
      else segment
    | _, _ => segment

/-- The target-construction loop of `buildTargetPath`: `used` counts the
source wildcards consumed so far. -/
def buildLoop (srcSegs : List (String × String)) (wildcardIndices : List Nat)
    (filePattern : Option String) :
    List String → Nat → List String → List String
  | [], _, acc => acc
  | tp :: rest, used, acc =>
    if tp = "*" || tp = "**" then
      match wildcardIndices.get? used with
      | some srcIdx =>
        match alookup srcSegs ("$" ++ toString srcIdx) with
        | some segment =>
          if segment ≠ "" then buildLoop srcSegs wildcardIndices filePattern rest (used + 1) (acc ++ [segment])
          else buildLoop srcSegs wildcardIndices filePattern rest used (acc ++ [tp])
        | none => buildLoop srcSegs wildcardIndices filePattern rest used (acc ++ [tp])
      | none => buildLoop srcSegs wildcardIndices filePattern rest used (acc ++ [tp])
    else if containsC tp '*' then
      match wildcardIndices.get? used with
      | some srcIdx =>
        match alookup srcSegs ("$" ++ toString srcIdx) with
        | some segment =>
          if segment ≠ "" then
            buildLoop srcSegs wildcardIndices filePattern rest (used + 1)
              (acc ++ [applyFilePattern filePattern segment])
          else buildLoop srcSegs wildcardIndices filePattern rest used (acc ++ [tp])
        | none => buildLoop srcSegs wildcardIndices filePattern rest used (acc ++ [tp])
      | none => buildLoop srcSegs wildcardIndices filePattern rest used (acc ++ [tp])
    else buildLoop srcSegs wildcardIndices filePattern rest used (acc ++ [tp])

/-- `buildTargetPath` from `src/rules/mirror.ts`. -/
def buildTargetPath (sourcePath sourcePattern targetPattern : String)
    (filePattern : Option String) : Option String :=
  match extractPathSegments sourcePath sourcePattern with
  | none => none
  | some srcSegs =>
    let sourceParts := splitSegs sourcePattern
    let targetParts := splitSegs targetPattern
    let wildcardIndices :=
      ((sourceParts.enum).filter
        (fun p => p.2 = "*" || p.2 = "**" || containsC p.2 '*')).map (·.1)
    some (String.intercalate "/" (buildLoop srcSegs wildcardIndices filePattern targetParts 0 []))

/-- `checkMirror` from `src/rules/mirror.ts`. -/
def checkMirror (gm : GM) (ctx : CheckCtx) (st : EngSt) : EngSt :=
  let mirrors := rulesList ctx.config Rules.mirror
  mirrors.foldl (fun st mirror =>
    let sourceFiles := ctx.files.filter
      (fun f => !f.isDirectory && matchesG gm f.relativePath mirror.source)
    sourceFiles.foldl (fun st source =>
      match buildTargetPath source.relativePath mirror.source mirror.target mirror.pattern with
      | none => st
      | some targetPath =>
        if targetPath ≠ "" && !ctx.fileSet.contains targetPath then
          addViolationFull ctx st source.relativePath "mirror"
            ("missing mirrored file: " ++ targetPath) (some targetPath) none none
        else st) st) st

/-- Modelled from the spec: `when.ts` (the conditional-requirement check
invoked by `src/rules/index.ts`) is not among the provided sources; it is
modeled from §4.3 of the specification ("conditional `when` requirements
... records violations without touching the matched set") and the prior
in-repo implementation (`checkWhen` in `src/checker.ts`): for every
scanned directory and every `trigger → requires` entry, if the trigger
file exists in that directory, each required companion must exist there
too, else a violation of rule `when` is recorded. -/
def checkWhen (ctx : CheckCtx) (st : EngSt) : EngSt :=
  match ctx.config.rules.bind Rules.whenRules with
  | none => st
  | some whenRules =>
    ctx.dirSet.foldl (fun st dir =>
      whenRules.foldl (fun st wr =>
        let triggerPath := if dir ≠ "" then dir ++ "/" ++ wr.1 else wr.1
        if ctx.fileSet.contains triggerPath then
          wr.2.foldl (fun st required =>
            let requiredPath := if dir ≠ "" then dir ++ "/" ++ required else required
            if !ctx.fileSet.contains requiredPath then
              addViolationFull ctx st triggerPath "when"
                ("\"" ++ wr.1 ++ "\" requires \"" ++ required ++ "\" to exist")
                (some requiredPath) none none
            else st) st
        else st) st) st

/-! ## The layout validator (`src/rules/layout.ts`)

`checkLayoutNode` dispatches on the node kind; the per-kind handlers take
the recursive call as an explicit `recurse` argument so that recursion is
structural on a fuel counter in `checkLayoutNode`/`checkRecursiveNode`
only.  The source recursion always terminates (layout trees are finite
and a `recursive` node only descends through strictly longer `dirSet`
paths); `layoutFuel` below over-approximates the recursion depth, and the
general theorems quantify over the fuel. -/

/-- JS truthiness of an optional string: `undefined` and `""` are falsy. -/
def truthyStr : Option String → Option String
  | some s => if s = "" then none else some s
  | none => none

/-- `checkFileNode` from `src/rules/layout.ts`. -/
def checkFileNode (gm : GM) (ctx : CheckCtx) (node : LayoutNode) (path : String)
    (st : EngSt) : Bool × EngSt :=
  if ctx.fileSet.contains path then
    let st := markMatched st path
    let st :=
      match truthyStr node.pattern with
      | some p =>
        let basename := getBasename path
        if !matchesWithBracesG gm basename p then
          addViolation ctx st path "layout"
            ("file does not match pattern \"" ++ p ++ "\"")
        else st
      | none => st
    let st :=
      match node.caseStyle with
      | some c =>
        let basename := getBasename path
        if !validateCase basename c then
          addViolationFull ctx st path "naming" ("expected " ++ getCaseName c)
            none (some basename) (some [suggestCase basename c])
        else st
      | none => st
    (true, st)
  else
    (false,
     if node.required then addViolation ctx st path "layout" "required file is missing"
     else st)

/-- The `children` loop of `checkDirNode`: a `$`-prefixed ("meta") key
recurses at the parent's own path, a literal key at `parent/key`. -/
def childrenLoop (recurse : LayoutNode → String → EngSt → Bool × EngSt)
    (path : String) : List (String × LayoutNode) → EngSt → EngSt
  | [], st => st
  | (name, childNode) :: rest, st =>
    let st :=
      if startsWithS name "$" then (recurse childNode path st).2
      else (recurse childNode (if path ≠ "" then path ++ "/" ++ name else name) st).2
    childrenLoop recurse path rest st

/-- The `strict` sweep of `checkDirNode`: flag (and mark matched) every
entry under this directory whose first path segment is neither a literal
child key nor already matched. -/
def dirStrictLoop (ctx : CheckCtx) (pre pathLabel : String) (allowed : List String) :
    List FileEntry → EngSt → EngSt
  | [], st => st
  | f :: rest, st =>
    let st :=
      if startsWithS f.relativePath pre then
        let restPath := dropS f.relativePath (lenS pre)
        let firstPart := firstSeg restPath
        let matchedB := isMatched st f.relativePath
        if firstPart ≠ "" && !allowed.contains firstPart && !matchedB then
          markMatched
            (addViolation ctx st f.relativePath "layout"
              ("\"" ++ firstPart ++ "\" is not allowed in " ++ pathLabel))
            f.relativePath
        else st
      else st
    dirStrictLoop ctx pre pathLabel allowed rest st

/-- `checkDirNode` from `src/rules/layout.ts`. -/
def checkDirNode (_gm : GM) (ctx : CheckCtx)
    (recurse : LayoutNode → String → EngSt → Bool × EngSt)
    (node : LayoutNode) (path : String) (st : EngSt) : Bool × EngSt :=
  let dirExists := path = "" || ctx.dirSet.contains path
  if !dirExists then
    (false,
     if node.required then
       addViolation ctx st path "layout" "required directory is missing"
     else st)
  else
    let st := if path ≠ "" then markMatched st path else st
    let children := node.children
    let st := childrenLoop recurse path children st
    let st :=
      if node.strict then
        let pre := if path ≠ "" then path ++ "/" else ""
        let allowed := (children.map (·.1)).filter (fun n => !startsWithS n "$")
        dirStrictLoop ctx pre (if path ≠ "" then path else "root") allowed ctx.files st
      else st
    (true, st)

/-- The entry loop of `checkParamNode`: `case` is validated before the
`pattern` filter, so a pattern-failing child still receives its naming
violation. -/
def paramLoop (gm : GM) (ctx : CheckCtx)
    (recurse : LayoutNode → String → EngSt → Bool × EngSt)
    (node : LayoutNode) (parentPath pre : String) :
    List FileEntry → Bool → EngSt → Bool × EngSt
  | [], found, st => (found, st)
  | entry :: rest, found, st =>
    if !startsWithS entry.relativePath pre then
      paramLoop gm ctx recurse node parentPath pre rest found st
    else
      let restPath := dropS entry.relativePath (lenS pre)
      let name := firstSeg restPath
      if name = "" then paramLoop gm ctx recurse node parentPath pre rest found st
      else
        let fullPath := if parentPath ≠ "" then parentPath ++ "/" ++ name else name
        if isMatched st fullPath then
          paramLoop gm ctx recurse node parentPath pre rest found st
        else
          let st :=
            match node.caseStyle with
            | some c =>
              if !validateCase name c then
                addViolationFull ctx st fullPath "naming" ("expected " ++ getCaseName c)
                  none (some name) (some [suggestCase name c])
              else st
            | none => st
          if (match truthyStr node.pattern with
              | some p => !matchesWithBracesG gm name p
              | none => false) then
            paramLoop gm ctx recurse node parentPath pre rest found st
          else
            let st :=
              match node.child with
              | some ch => (recurse ch fullPath st).2
              | none => st
            paramLoop gm ctx recurse node parentPath pre rest true (markMatched st fullPath)

/-- `checkParamNode` from `src/rules/layout.ts`. -/
def checkParamNode (gm : GM) (ctx : CheckCtx)
    (recurse : LayoutNode → String → EngSt → Bool × EngSt)
    (node : LayoutNode) (parentPath : String) (st : EngSt) : Bool × EngSt :=
  let pre := if parentPath ≠ "" then parentPath ++ "/" else ""
  paramLoop gm ctx recurse node parentPath pre ctx.files false st

/-- The entry loop of `checkManyNode`: unlike `paramLoop`, the `pattern`
filter runs before the `case` validation, and each first-segment name is
processed at most once (the `seen` set). -/
def manyLoop (gm : GM) (ctx : CheckCtx)
    (recurse : LayoutNode → String → EngSt → Bool × EngSt)
    (node : LayoutNode) (parentPath pre : String) :
    List FileEntry → List String → Nat → EngSt → Nat × EngSt
  | [], _, count, st => (count, st)
  | entry :: rest, seen, count, st =>
    if !startsWithS entry.relativePath pre then
      manyLoop gm ctx recurse node parentPath pre rest seen count st
    else
      let restPath := dropS entry.relativePath (lenS pre)
      let name := firstSeg restPath
      if name = "" then manyLoop gm ctx recurse node parentPath pre rest seen count st
      else if seen.contains name then
        manyLoop gm ctx recurse node parentPath pre rest seen count st
      else
        let seen := seen ++ [name]
        let fullPath := if parentPath ≠ "" then parentPath ++ "/" ++ name else name
        if isMatched st fullPath then
          manyLoop gm ctx recurse node parentPath pre rest seen count st
        else if (match truthyStr node.pattern with
                 | some p => !matchesWithBracesG gm name p
                 | none => false) then
          manyLoop gm ctx recurse node parentPath pre rest seen count st
        else
          let st :=
            match node.caseStyle with
            | some c =>
              if !validateCase name c then
                addViolationFull ctx st fullPath "naming" ("expected " ++ getCaseName c)
                  none (some name) (some [suggestCase name c])
              else st
            | none => st
          let st :=
            match node.child with
            | some ch => (recurse ch fullPath st).2
            | none => markMatched st fullPath
          manyLoop gm ctx recurse node parentPath pre rest seen (count + 1) st

/-- `checkManyNode` from `src/rules/layout.ts`: consume every qualifying
direct child, then validate the count against `min`/`max`. -/
def checkManyNode (gm : GM) (ctx : CheckCtx)
    (recurse : LayoutNode → String → EngSt → Bool × EngSt)
    (node : LayoutNode) (parentPath : String) (st : EngSt) : Bool × EngSt :=
  let pre := if parentPath ≠ "" then parentPath ++ "/" else ""
  let cs := manyLoop gm ctx recurse node parentPath pre ctx.files [] 0 st
  let count := cs.1
  let st := cs.2
  let st :=
    match node.max with
    | some mx =>
      if count > mx then
        addViolation ctx st parentPath "layout"
          ("exceeded maximum count: " ++ toString count ++ " > " ++ toString mx)
      else st
    | none => st
  let st :=
    match node.min with
    | some mn =>
      if count < mn then
        addViolation ctx st parentPath "layout"
          ("below minimum count: " ++ toString count ++ " < " ++ toString mn)
      else st
    | none => st
  (count > 0, st)

/-- The entry loop of `checkRecursiveNode`: like `manyLoop` but without a
`pattern` filter, and after processing a directory child it re-enters the
same node definition there (`recurseSelf`). -/
def recLoop (ctx : CheckCtx)
    (recurseChild : LayoutNode → String → EngSt → Bool × EngSt)
    (recurseSelf : String → EngSt → Bool × EngSt)
    (node : LayoutNode) (parentPath pre : String) :
    List FileEntry → List String → Bool → EngSt → Bool × EngSt
  | [], _, found, st => (found, st)
  | entry :: rest, seen, found, st =>
    if !startsWithS entry.relativePath pre then
      recLoop ctx recurseChild recurseSelf node parentPath pre rest seen found st
    else
      let restPath := dropS entry.relativePath (lenS pre)
      let name := firstSeg restPath
      if name = "" then
        recLoop ctx recurseChild recurseSelf node parentPath pre rest seen found st
      else if seen.contains name then
        recLoop ctx recurseChild recurseSelf node parentPath pre rest seen found st
      else
        let seen := seen ++ [name]
        let fullPath := if parentPath ≠ "" then parentPath ++ "/" ++ name else name
        if isMatched st fullPath then
          recLoop ctx recurseChild recurseSelf node parentPath pre rest seen found st
        else
          let st :=
            match node.caseStyle with
            | some c =>
              if !validateCase name c then
                addViolationFull ctx st fullPath "naming" ("expected " ++ getCaseName c)
                  none (some name) (some [suggestCase name c])
              else st
            | none => st
          let st :=
            match node.child with
            | some ch => (recurseChild ch fullPath st).2
            | none => st
          let st := markMatched st fullPath
          let st :=
            if ctx.dirSet.contains fullPath then (recurseSelf fullPath st).2
            else st
          recLoop ctx recurseChild recurseSelf node parentPath pre rest seen true st

/-- `checkRecursiveNode` from `src/rules/layout.ts`: stop beyond
`maxDepth`, mark the parent directory matched, then run the entry loop,
re-entering the same node at `depth + 1` below each matched directory
child. -/
def checkRecursiveNode (ctx : CheckCtx)
    (recurseChild : LayoutNode → String → EngSt → Bool × EngSt) :
    Nat → LayoutNode → String → Nat → EngSt → Bool × EngSt
  | 0, _, _, _, st => (false, st)
  | fuel + 1, node, parentPath, depth, st =>
    if (match node.maxDepth with
        | some md => decide (depth > md)
        | none => false) then (false, st)
    else
      let st :=
        if parentPath ≠ "" && ctx.dirSet.contains parentPath then markMatched st parentPath
        else st
      let pre := if parentPath ≠ "" then parentPath ++ "/" else ""
      recLoop ctx recurseChild
        (fun p s => checkRecursiveNode ctx recurseChild fuel node p (depth + 1) s)
        node parentPath pre ctx.files [] false st

/-- The variant loop of `checkEitherNode`: try each variant from the same
snapshot `st`; the first variant reporting a match wins and its final
state is kept, a failing variant's state is discarded (the source
restores both `Ref`s — violations and matched set — to their snapshots,
which together are the whole engine state). -/
def eitherLoop (recurse : LayoutNode → String → EngSt → Bool × EngSt)
    (path : String) : List LayoutNode → EngSt → Option EngSt
  | [], _ => none
  | variant :: rest, st =>
    let r := recurse variant path st
    if r.1 then some r.2
    else eitherLoop recurse path rest st

/-- `checkEitherNode` from `src/rules/layout.ts`. -/
def checkEitherNode (ctx : CheckCtx)
    (recurse : LayoutNode → String → EngSt → Bool × EngSt)
    (node : LayoutNode) (path : String) (st : EngSt) : Bool × EngSt :=
  match eitherLoop recurse path node.variants st with
  | some st' => (true, st')
  | none =>
    (false,
     if !node.optional then
       addViolation ctx st path "layout" "none of the expected variants matched"
     else st)

/-- `checkLayoutNode` from `src/rules/layout.ts`: dispatch on the node
kind (default `file`), with fuel-bounded recursion. -/
def checkLayoutNode (gm : GM) (ctx : CheckCtx) :
    Nat → LayoutNode → String → EngSt → Bool × EngSt
  | 0, _, _, st => (false, st)
  | fuel + 1, node, path, st =>
    let recurse := fun n p s => checkLayoutNode gm ctx fuel n p s
    match node.type.getD .file with
    | .file => checkFileNode gm ctx node path st
    | .dir => checkDirNode gm ctx recurse node path st
    | .param => checkParamNode gm ctx recurse node path st
    | .many => checkManyNode gm ctx recurse node path st
    | .recursive => checkRecursiveNode ctx recurse fuel node path 0 st
    | .either => checkEitherNode ctx recurse node path st

/-- The strict-mode sweep of `checkLayout`: every filtered entry whose
relative path is neither in the (snapshot of the) matched set nor covered
by `ignorePaths` becomes an "unexpected file" violation of rule
`layout`. -/
def sweepLoop (gm : GM) (ctx : CheckCtx) (ignorePaths : List String)
    (matchedSet : List String) : List FileEntry → EngSt → EngSt
  | [], st => st
  | f :: rest, st =>
    let st :=
      if !matchedSet.contains f.relativePath &&
          !matchesAnyG gm f.relativePath ignorePaths then
        addViolation ctx st f.relativePath "layout" "unexpected file (not defined in layout)"
      else st
    sweepLoop gm ctx ignorePaths matchedSet rest st

/-- `checkLayout` from `src/rules/layout.ts`: walk the layout tree from
the root path `""`, then in strict mode run the unexpected-file sweep
over the matched-set snapshot. -/
def checkLayout (gm : GM) (ctx : CheckCtx) (fuel : Nat) (st : EngSt) : EngSt :=
  match ctx.config.layout with
  | none => st
  | some layout =>
    let st := (checkLayoutNode gm ctx fuel layout "" st).2
    if ctx.config.mode = some .strict then
      let ignorePaths := rulesList ctx.config Rules.ignorePaths
      sweepLoop gm ctx ignorePaths st.matched ctx.files st
    else st

/-! ## `check` (`src/rules/index.ts`) -/

structure CheckSummary where
  total : Nat
  errors : Nat
  warnings : Nat
  filesChecked : Nat
  duration : Nat
deriving DecidableEq, Repr

structure CheckResult where
  violations : List Violation
  summary : CheckSummary
deriving DecidableEq, Repr

mutual

/-- Size of a layout node (for the fuel bound). -/
def nodeSize : LayoutNode → Nat
  | .mk _ _ _ _ _ _ _ _ _ children child variants =>
    1 + nodeSizePairs children +
      (match child with
       | some c => nodeSize c
       | none => 0) + nodeSizeList variants

def nodeSizePairs : List (String × LayoutNode) → Nat
  | [] => 0
  | (_, c) :: rest => nodeSize c + nodeSizePairs rest

def nodeSizeList : List LayoutNode → Nat
  | [] => 0
  | n :: rest => nodeSize n + nodeSizeList rest

end

/-- Fuel over-approximating the layout recursion depth: the layout tree
size plus the total length of all relative paths (a `recursive` node can
only self-descend through strictly longer `dirSet` paths). -/
def layoutFuel (config : RepoLintConfig) (files : List FileEntry) : Nat :=
  (match config.layout with
   | some l => nodeSize l
   | none => 0) +
    (files.map (fun f => lenS f.relativePath)).sum + 2

/-- `check` from `src/rules/index.ts`: filter the entries by `ignorePaths`,
build the context, run the forbidden-path / forbidden-name / dependency /
mirror / conditional checks, then the layout check (which must run last),
and assemble the result.  `duration` is wall-clock time in the source and
is modeled as `0`. -/
def check (gm : GM) (config : RepoLintConfig) (files : List FileEntry) : CheckResult :=
  let ignorePaths := rulesList config Rules.ignorePaths
  let filteredFiles := files.filter (fun f => !matchesAnyG gm f.relativePath ignorePaths)
  let ctx := createContext config filteredFiles
  let st : EngSt := ⟨[], []⟩
  let st := checkForbidPaths gm ctx st
  let st := checkForbidNames ctx st
  let st := checkDependencies gm ctx st
  let st := checkMirror gm ctx st
  let st := checkWhen ctx st
  let st := checkLayout gm ctx (layoutFuel config filteredFiles) st
  { violations := st.violations
    summary :=
      { total := st.violations.length
        errors := (st.violations.filter (fun v => v.severity = .error)).length
        warnings := (st.violations.filter (fun v => v.severity = .warning)).length
        filesChecked := files.length
        duration := 0 } }

/-- `check` with the pure matcher source. -/
def checkPure (config : RepoLintConfig) (files : List FileEntry) : CheckResult :=
  check pureGM config files

/-! ## The matcher cache (`MatcherCache` in `src/core/matcher.ts`)

A JS `Map` is insertion-ordered with distinct keys: `set` on a present key
replaces the value in place, otherwise appends; `keys()` iterates in
insertion order, so deleting the first `toRemove` iterated keys drops the
first `toRemove` entries.  `Math.floor(maxSize * 0.1)` is modeled as
`maxSize / 10` (Nat division); the two agree on every realistic size. -/

/-- `Map.set` semantics on an insertion-ordered association list. -/
def mapSet : List (String × α) → String → α → List (String × α)
  | [], k, v => [(k, v)]
  | (k', v') :: rest, k, v =>
    if k' = k then (k', v) :: rest else (k', v') :: mapSet rest k v

/-- The `MatcherCache` class of `src/core/matcher.ts`, generic in the
stored value (the source stores compiled matcher closures). -/
structure MatcherCache (α : Type) where
  entries : List (String × α)
  maxSize : Nat

/-- A fresh cache with the given maximum size (`new MatcherCache(maxSize)`). -/
def MatcherCache.empty (α : Type) (maxSize : Nat) : MatcherCache α := ⟨[], maxSize⟩

/-- `MatcherCache.get`. -/
def MatcherCache.get (c : MatcherCache α) (pattern : String) : Option α :=
  (c.entries.find? (fun kv => kv.1 = pattern)).map (·.2)

/-- `MatcherCache.size`. -/
def MatcherCache.size (c : MatcherCache α) : Nat := c.entries.length

/-- `MatcherCache.limit`. -/
def MatcherCache.limit (c : MatcherCache α) : Nat := c.maxSize

/-- `MatcherCache.clear`. -/
def MatcherCache.clear (c : MatcherCache α) : MatcherCache α := { c with entries := [] }

/-- `MatcherCache.evictIfNeeded`: when the size has reached `maxSize`,
delete the oldest `Math.floor(maxSize * 0.1)` entries. -/
def MatcherCache.evictIfNeeded (c : MatcherCache α) : MatcherCache α :=
  if c.entries.length ≥ c.maxSize then
    { c with entries := c.entries.drop (c.maxSize / 10) }
  else c

/-- `MatcherCache.set`: evict if needed, then `Map.set`. -/
def MatcherCache.set (c : MatcherCache α) (pattern : String) (v : α) : MatcherCache α :=
  let c := c.evictIfNeeded
  { c with entries := mapSet c.entries pattern v }

/-- `MAX_CACHE_SIZE` from `src/core/matcher.ts`. -/
def MAX_CACHE_SIZE : Nat := 1000

/-- The type of the module-level `defaultMatcherCache`: compiled matcher
closures keyed by normalized pattern text. -/
abbrev MatcherFnCache := MatcherCache (String → Bool)

/-- `getCachedMatcher` from `src/core/matcher.ts`, with the cache state
made explicit: empty pattern short-circuits; otherwise look the
normalized pattern up, compiling and storing on a miss. -/
def getCachedMatcherC (c : MatcherFnCache) (pattern : String) :
    (String → Bool) × MatcherFnCache :=
  if pattern = "" then (fun path => path = "", c)
  else
    let np := normalizePattern pattern
    match c.get np with
    | some m => (m, c)
    | none => (rawCompile np, c.set np (rawCompile np))

/-- The matcher source backed by a given cache state: what a run of the
engine observes when the module-level cache currently holds `c`. -/
def gmOfCache (c : MatcherFnCache) : GM :=
  fun pattern => (getCachedMatcherC c pattern).1

/-- Cache well-formedness: every stored closure is the compilation of its
key.  `getCachedMatcherC` only ever stores `rawCompile np` under `np`, so
every cache state reachable from the empty cache is well-formed. -/
def WFCache (c : MatcherFnCache) : Prop :=
  ∀ kv ∈ c.entries, kv.2 = rawCompile kv.1

/-! ## Scanner entry classification (`scanDirectory` in `src/core/scanner.ts`)

The model covers the per-entry loop of `scanDirectory` (lines 206–270):
classification of directory entries into recorded `FileEntry`s and
subdirectory recursion tasks, with the NUL-name skip, the ignore filter,
the max-files bound, and the symlink handling.  Filesystem interactions
are oracle parameters: `mkFull`/`mkRel` compute `join(dir, name)` and
`normalizePath(relative(root, join(dir, name)))`, `resolveLink` is
`realpath` (`none` when it fails, which the source swallows), and `meta`
is `getFileMeta` (size, mtime). -/

/-- A `readdir(dir, { withFileTypes: true })` entry.  On a real
filesystem exactly one of `isDirectory`/`isFile`/`isSymbolicLink` holds
(`lstat` semantics: a symlink dirent reports `isSymbolicLink() === true`
and `isDirectory() === isFile() === false`). -/
structure Dirent where
  name : String
  isDirectory : Bool
  isFile : Bool
  isSymbolicLink : Bool
deriving DecidableEq, Repr

inductive ScanFailure where
  | maxFilesExceeded (count maxFiles : Nat)
  | symlinkLoop (path target : String)
  | maxDepthExceeded (path : String) (depth maxDepth : Nat)
deriving DecidableEq, Repr

/-- A deferred recursion into a subdirectory. -/
structure SubdirTask where
  path : String
  depth : Nat
deriving DecidableEq, Repr

/-- The per-entry loop of `scanDirectory`: threads the running file count
and the visited-symlink-target set, accumulating recorded entries and
subdirectory tasks.  Returns the recorded entries, the subdirectory
tasks, the final count, and the final visited set, or the typed failure
that aborted the scan. -/
def processEntries (followSymlinks : Bool) (maxDepth maxFiles : Nat)
    (ignoreMatcher : String → Bool) (mkFull mkRel : String → String)
    (resolveLink : String → Option String)
    (meta : String → Option Nat × Option Nat) (currentDepth : Nat) :
    List Dirent → Nat → List String → List FileEntry → List SubdirTask →
    Except ScanFailure (List FileEntry × List SubdirTask × Nat × List String)
  | [], count, visited, results, subdirs => .ok (results, subdirs, count, visited)
  | entry :: rest, count, visited, results, subdirs =>
    if containsC entry.name (Char.ofNat 0) then
      processEntries followSymlinks maxDepth maxFiles ignoreMatcher mkFull mkRel
        resolveLink meta currentDepth rest count visited results subdirs
    else
      let fullPath := mkFull entry.name
      let relPath := mkRel entry.name
      if ignoreMatcher relPath then
        processEntries followSymlinks maxDepth maxFiles ignoreMatcher mkFull mkRel
          resolveLink meta currentDepth rest count visited results subdirs
      else if count ≥ maxFiles then .error (.maxFilesExceeded count maxFiles)
      else
        let count := count + 1
        let depth := currentDepth + 1
        let isLink := entry.isSymbolicLink
        let visitStep : Except ScanFailure (List String) :=
          if isLink && followSymlinks then
            match resolveLink fullPath with
            | some target =>
              if visited.contains target then .error (.symlinkLoop fullPath target)
              else .ok (visited ++ [target])
            | none => .ok visited
          else .ok visited
        match visitStep with
        | .error e => .error e
        | .ok visited =>
          if entry.isDirectory || (isLink && followSymlinks) then
            let results := results ++
              [{ path := fullPath, relativePath := relPath, isDirectory := true,
                 isSymlink := isLink, depth := depth }]
            if currentDepth < maxDepth then
              processEntries followSymlinks maxDepth maxFiles ignoreMatcher mkFull mkRel
                resolveLink meta currentDepth rest count visited results
                (subdirs ++ [{ path := fullPath, depth := depth }])
            else .error (.maxDepthExceeded fullPath depth maxDepth)
          else if entry.isFile then
            let sm := meta fullPath
            processEntries followSymlinks maxDepth maxFiles ignoreMatcher mkFull mkRel
              resolveLink meta currentDepth rest count visited
              (results ++
                [{ path := fullPath, relativePath := relPath, isDirectory := false,
                   isSymlink := isLink, depth := depth,
                   mtimeMs := sm.2, size := sm.1 }])
              subdirs
          else
            processEntries followSymlinks maxDepth maxFiles ignoreMatcher mkFull mkRel
              resolveLink meta currentDepth rest count visited results subdirs

/-! ## Cache fingerprint (`computeFileHash` in `src/core/cache.ts`) -/

/-- One `"relativePath:kind:size:mtime"` line of the fingerprint. -/
def entryLine (f : FileEntry) : String :=
  f.relativePath ++ ":" ++ (if f.isDirectory then "D" else "F") ++ ":" ++
    toString (f.size.getD 0) ++ ":" ++ toString (f.mtimeMs.getD 0)

/-- `computeFileHash` from `src/core/cache.ts`: map the entries to their
lines, sort (JS `Array.prototype.sort`, the default lexicographic string
comparator, modeled by `List.mergeSort` with Lean's total order on
`String`), join with newlines, and hash.  `hashString` (a truncated
SHA-256 in the source) is an arbitrary function parameter: every theorem
below holds for all of them. -/
def computeFileHash (hashString : String → String) (files : List FileEntry) : String :=
  hashString (String.intercalate "\n"
    ((files.map entryLine).mergeSort (fun a b => a ≤ b)))

/-! ## Concrete instances used in witnesses and counterexamples -/

/-- A file entry as the repository's own test helper `makeFiles` builds
them: a path is a directory iff it contains no dot. -/
def fe (p : String) : FileEntry :=
  { path := "/test/" ++ p, relativePath := p,
    isDirectory := !containsC p '.', isSymlink := false,
    depth := (splitSegs p).length }

/-- A directory node with the given children and no other attributes. -/
def dnode (cs : List (String × LayoutNode)) : LayoutNode :=
  .mk (some .dir) none none false false false none none none cs none []

/-- The `either` variants of the specification's example:
`[{type:file, required:true}, {type:dir, children:{"index.ts":{}}}]`. -/
def eitherVariants : List LayoutNode :=
  [.mk (some .file) none none false true false none none none [] none [],
   dnode [("index.ts", plainNode)]]

/-- The `either` node with those variants. -/
def eitherNodeC : LayoutNode :=
  .mk (some .either) none none false false false none none none [] none eitherVariants

/-- Context for the `either` example: `pages` is a directory containing
only `index.ts` and is not itself a file. -/
def ctxEither : CheckCtx :=
  createContext { mode := some .warn } [fe "pages", fe "pages/index.ts"]

/-- The strict-mode configuration of the specification's unexpected-file
example: layout `{type:"dir", children:{"package.json":{}}}`. -/
def cfgStrict : RepoLintConfig :=
  { mode := some .strict, layout := some (dnode [("package.json", plainNode)]) }

/-- Entries `["package.json", "unexpected.ts"]`. -/
def entriesStrict : List FileEntry := [fe "package.json", fe "unexpected.ts"]

/-- The match rule of the repository test "warns when pattern matches
nothing": its pattern matches no directory of the entry set. -/
def unmatchedMatchRule : MatchRule :=
  { pattern := "this/path/does/not/exist/*", require := some ["foo.ts"] }

/-- A configuration whose only rule is `unmatchedMatchRule`. -/
def cfgUnmatchedMatch : RepoLintConfig :=
  { mode := some .strict, rules := some { matchRules := some [unmatchedMatchRule] } }

/-- A `many` node with both `pattern: "*.ts"` and `case: kebab`. -/
def manyNodeC : LayoutNode :=
  .mk (some .many) (some "*.ts") (some .kebab) false false false none none none [] none []

/-- Context for the `many` example: `src` contains only `Bad_File.md`,
whose name fails both the pattern and the kebab case style. -/
def ctxMany : CheckCtx :=
  createContext { mode := some .warn } [fe "src", fe "src/Bad_File.md"]

end RepoLint

namespace RepoLint

/-! # Theorems -/

/-! ## Claim C9: `computeFileHash` is invariant under permutation -/

/-- C9: for every hash function and every entry list, `computeFileHash`
returns the same fingerprint on any permutation of the list: the
normalized lines are sorted before hashing, so the fingerprint is
order-independent. -/
theorem c9_computeFileHash_perm_invariant (hashString : String → String)
    (files files' : List FileEntry) (h : files.Perm files') :
    computeFileHash hashString files = computeFileHash hashString files' := by
  unfold computeFileHash
  have hsort :
      (files.map entryLine).mergeSort (fun a b => a ≤ b) =
        (files'.map entryLine).mergeSort (fun a b => a ≤ b) := by
    apply List.eq_of_perm_of_sorted (r := (· ≤ ·))
    · exact (List.mergeSort_perm _ _).trans
        ((h.map entryLine).trans (List.mergeSort_perm _ _).symm)
    · exact List.sorted_mergeSort' _
    · exact List.sorted_mergeSort' _
  rw [hsort]

/-- Witness for C9 at a concrete two-element list and its swap. -/
theorem c9_witness :
    computeFileHash (fun s => s) [fe "a.ts", fe "b"] =
      computeFileHash (fun s => s) [fe "b", fe "a.ts"] :=
  c9_computeFileHash_perm_invariant (fun s => s) _ _ (List.Perm.swap _ _ _)

/-! ## Claim C10: summary consistency of `CheckResult` -/

/-- Violations split exactly into errors and warnings. -/
theorem sevSplit (vs : List Violation) :
    (vs.filter (fun v => v.severity = .error)).length +
      (vs.filter (fun v => v.severity = .warning)).length = vs.length := by
  induction vs with
  | nil => rfl
  | cons v rest ih =>
    cases hv : v.severity <;> (simp [List.filter_cons, hv]; omega)

/-- C10: every `CheckResult` produced by `check` has a consistent summary:
`total` is the number of violations, every severity is `error` or
`warning`, and `errors + warnings = total`. -/
theorem c10_summary_consistent (gm : GM) (config : RepoLintConfig)
    (files : List FileEntry) :
    (check gm config files).summary.total = (check gm config files).violations.length ∧
    (check gm config files).summary.errors + (check gm config files).summary.warnings =
      (check gm config files).summary.total ∧
    (check gm config files).violations.all
      (fun v => v.severity = .error || v.severity = .warning) = true := by
  refine ⟨rfl, ?_, ?_⟩
  · exact sevSplit (check gm config files).violations
  · simp only [List.all_eq_true]
    intro v _
    cases hv : v.severity <;> simp [hv]

/-! ## Claim C7: bounded matcher cache -/

/-- C7 counterexample: a `MatcherCache` with the (positive) maximum size 1
holds two entries after two `set` operations, exceeding the bound — the
eviction batch `Math.floor(1 * 0.1)` is zero, so eviction removes
nothing. -/
theorem c7_counterexample :
    (((MatcherCache.empty Unit 1).set "a" ()).set "b" ()).size = 2 ∧ 2 > 1 :=
  ⟨rfl, by decide⟩

theorem mapSet_length_le (l : List (String × α)) (k : String) (v : α) :
    (mapSet l k v).length ≤ l.length + 1 := by
  induction l with
  | nil => simp [mapSet]
  | cons kv rest ih =>
    by_cases hk : kv.1 = k
    · simp [mapSet, hk]
    · simp only [mapSet, if_neg hk, List.length_cons]
      omega

theorem MatcherCache.set_size_le {α} (c : MatcherCache α) (k : String) (v : α)
    (hmax : 10 ≤ c.maxSize) (hsz : c.size ≤ c.maxSize) :
    (c.set k v).size ≤ c.maxSize := by
  unfold MatcherCache.set MatcherCache.evictIfNeeded
  by_cases hfull : c.entries.length ≥ c.maxSize
  · simp only [hfull, if_pos, MatcherCache.size]
    have h1 := mapSet_length_le (c.entries.drop (c.maxSize / 10)) k v
    have h2 := List.length_drop (c.maxSize / 10) c.entries
    have h3 : c.entries.length ≤ c.maxSize := hsz
    omega
  · simp only [hfull, if_neg, MatcherCache.size, not_false_iff]
    have h1 := mapSet_length_le c.entries k v
    have : c.entries.length < c.maxSize := by
      have := hsz
      simp [MatcherCache.size] at this
      omega
    omega

theorem MatcherCache.set_maxSize {α} (c : MatcherCache α) (k : String) (v : α) :
    (c.set k v).maxSize = c.maxSize := by
  unfold MatcherCache.set MatcherCache.evictIfNeeded
  by_cases hfull : c.entries.length ≥ c.maxSize <;> simp [hfull]

theorem c7_fold_aux {α} (ops : List (String × α)) :
    ∀ c : MatcherCache α, 10 ≤ c.maxSize → c.size ≤ c.maxSize →
      (ops.foldl (fun c kv => c.set kv.1 kv.2) c).size ≤ c.maxSize := by
  induction ops with
  | nil => intro c _ h; simpa using h
  | cons kv rest ih =>
    intro c hmax hsz
    simp only [List.foldl_cons]
    have hms := MatcherCache.set_maxSize c kv.1 kv.2
    have := ih (c.set kv.1 kv.2) (by rw [hms]; exact hmax)
      (by rw [hms]; exact MatcherCache.set_size_le c kv.1 kv.2 hmax hsz)
    rwa [hms] at this

/-- C7 amended: for every `MatcherCache` whose configured maximum size is
at least 10 (so that the eviction batch `Math.floor(maxSize * 0.1)` is
nonempty), after any sequence of `set` operations the number of cached
entries never exceeds the configured maximum, with the oldest entries
evicted when the bound is reached.  (For maximum sizes below 10 the
eviction batch is zero and the bound can be exceeded, see the
counterexample.) -/
theorem c7_amended_cache_bounded {α} (maxSize : Nat) (hmax : 10 ≤ maxSize)
    (ops : List (String × α)) :
    (ops.foldl (fun c kv => c.set kv.1 kv.2) (MatcherCache.empty α maxSize)).size
      ≤ maxSize := by
  exact c7_fold_aux ops (MatcherCache.empty α maxSize) hmax (by simp [MatcherCache.size, MatcherCache.empty])

/-- Witness for the amended C7 at maximum size 10 and a concrete
twelve-element operation sequence. -/
theorem c7_witness :
    (((List.range 12).map (fun i => (toString i, ()))).foldl
      (fun c kv => c.set kv.1 kv.2) (MatcherCache.empty Unit 10)).size ≤ 10 :=
  c7_amended_cache_bounded 10 (by decide) _

/-! ## Claim C4: match rules inside `check` -/

/-- C4: `check` (`src/rules/index.ts`) never invokes `checkMatch`: on a
configuration whose only rule is a match rule whose pattern matches no
directory, `check` produces no violation at all — in particular no
always-`warning` "did not match any directories" diagnostic — although
the repository's own test suite (`test/checker.test.ts`, "warns when
pattern matches nothing") expects `check` to return exactly that
warning. -/
theorem c4_check_ignores_match_rules :
    (checkPure cfgUnmatchedMatch [fe "src", fe "src/index.ts"]).violations = [] := rfl

/-! ## Claim C1: `either` variants roll back failed attempts -/

/-- If the variant loop reports a match, the final state is exactly the
result of running the (first) matching variant from the ORIGINAL state:
failed earlier variants leave no trace in it. -/
theorem eitherLoop_sound (recurse : LayoutNode → String → EngSt → Bool × EngSt)
    (path : String) :
    ∀ (variants : List LayoutNode) (st st' : EngSt),
      eitherLoop recurse path variants st = some st' →
      ∃ v ∈ variants, recurse v path st = (true, st') := by
  intro variants
  induction variants with
  | nil => intro st st' h; simp [eitherLoop] at h
  | cons v rest ih =>
    intro st st' h
    simp only [eitherLoop] at h
    by_cases hm : (recurse v path st).1 = true
    · refine ⟨v, List.mem_cons_self v rest, ?_⟩
      have h2 : (recurse v path st).2 = st' := by
        simpa [hm] using h
      calc recurse v path st = ((recurse v path st).1, (recurse v path st).2) := rfl
        _ = (true, st') := by rw [hm, h2]
    · have h3 : eitherLoop recurse path rest st = some st' := by
        simpa [hm] using h
      obtain ⟨v', hv', hr⟩ := ih st st' h3
      exact ⟨v', List.mem_cons_of_mem v hv', hr⟩

/-- C1: whenever the layout checker reports a match for an `either` node,
the final state is the state produced by running one of its variants from
the state the `either` node started in — every violation appended and
every matched-set addition made by a failed variant has been rolled back
and does not reach the final result. -/
theorem c1_either_rollback (gm : GM) (ctx : CheckCtx) (fuel : Nat)
    (node : LayoutNode) (path : String) (st st' : EngSt)
    (htype : node.type = some .either)
    (h : checkLayoutNode gm ctx (fuel + 1) node path st = (true, st')) :
    ∃ v ∈ node.variants, checkLayoutNode gm ctx fuel v path st = (true, st') := by
  simp only [checkLayoutNode, htype, Option.getD_some] at h
  unfold checkEitherNode at h
  cases heq : eitherLoop (fun n p s => checkLayoutNode gm ctx fuel n p s) path
      node.variants st with
  | some s2 =>
    rw [heq] at h
    have hs : s2 = st' := by simpa using h
    exact eitherLoop_sound _ path node.variants st st' (hs ▸ heq)
  | none =>
    rw [heq] at h
    simp at h

/-- Witness for C1: the specification's example.  The first variant
(`{type:file, required:true}`) fails against the directory `pages`,
appending a "required file is missing" violation that is rolled back; the
second variant (`{type:dir, children:{"index.ts":{}}}`) matches, and the
final result has zero violations.  The theorem applied to the evaluated
run exhibits the matching variant operating on the original state. -/
theorem c1_witness :
    checkLayoutNode pureGM ctxEither 10 eitherNodeC "pages" ⟨[], []⟩ =
      (true, ⟨[], ["pages", "pages/index.ts"]⟩) ∧
    ∃ v ∈ eitherNodeC.variants,
      checkLayoutNode pureGM ctxEither 9 v "pages" ⟨[], []⟩ =
        (true, ⟨[], ["pages", "pages/index.ts"]⟩) :=
  ⟨rfl, c1_either_rollback pureGM ctxEither 9 eitherNodeC "pages" ⟨[], []⟩
    ⟨[], ["pages", "pages/index.ts"]⟩ rfl rfl⟩

/-! ## Claim C3: symlinks with symlink-following disabled -/

/-- C3 counterexample: with symlink-following disabled, a symlink dirent
(`isSymbolicLink` true, `isDirectory`/`isFile` false, the `lstat`
semantics of `readdir withFileTypes`) is recorded NOWHERE by the scan
loop: the result holds no `FileEntry` at all (in particular no
directory-shaped one) and no recursion task — only the file counter was
incremented.  The claim asserts a directory-shaped `FileEntry` is
recorded for it. -/
theorem c3_counterexample :
    processEntries false 100 100000 (fun _ => false) (fun n => "/root/" ++ n)
      (fun n => n) (fun _ => none) (fun _ => (none, none)) 0
      [{ name := "link", isDirectory := false, isFile := false, isSymbolicLink := true }]
      0 [] [] [] = .ok ([], [], 1, []) := rfl

/-- Provenance of scan records with symlink-following disabled: every
`FileEntry` the loop appends comes from a dirent reporting `isDirectory`
or `isFile`, and every recursion task from a dirent reporting
`isDirectory`; a pure symlink dirent therefore contributes neither. -/
theorem c3_amended_symlinks_skipped (maxDepth maxFiles : Nat) (ign : String → Bool)
    (mkFull mkRel : String → String) (resolveLink : String → Option String)
    (meta : String → Option Nat × Option Nat) (cd : Nat) :
    ∀ (entries : List Dirent) (count : Nat) (visited : List String)
      (results : List FileEntry) (subdirs : List SubdirTask)
      (res : List FileEntry × List SubdirTask × Nat × List String),
      processEntries false maxDepth maxFiles ign mkFull mkRel resolveLink meta cd
        entries count visited results subdirs = .ok res →
      (∀ f ∈ res.1, f ∈ results ∨
        ∃ e ∈ entries, (e.isDirectory || e.isFile) = true ∧ f.relativePath = mkRel e.name) ∧
      (∀ sd ∈ res.2.1, sd ∈ subdirs ∨
        ∃ e ∈ entries, e.isDirectory = true ∧ sd.path = mkFull e.name) := by
  intro entries
  induction entries with
  | nil =>
    intro count visited results subdirs res h
    simp only [processEntries, Except.ok.injEq] at h
    subst h
    exact ⟨fun f hf => Or.inl hf, fun sd hsd => Or.inl hsd⟩
  | cons e rest ih =>
    intro count visited results subdirs res h
    simp only [processEntries, Bool.and_false, Bool.false_eq_true, if_false,
      Bool.or_false] at h
    -- weakening of the induction hypothesis from `rest` to `e :: rest`
    have weaken :
        ∀ results' subdirs' count' visited',
          processEntries false maxDepth maxFiles ign mkFull mkRel resolveLink meta cd
            rest count' visited' results' subdirs' = .ok res →
          (∀ f ∈ results', f ∈ results ∨
            ∃ e' ∈ e :: rest, (e'.isDirectory || e'.isFile) = true ∧
              f.relativePath = mkRel e'.name) →
          (∀ sd ∈ subdirs', sd ∈ subdirs ∨
            ∃ e' ∈ e :: rest, e'.isDirectory = true ∧ sd.path = mkFull e'.name) →
          (∀ f ∈ res.1, f ∈ results ∨
            ∃ e' ∈ e :: rest, (e'.isDirectory || e'.isFile) = true ∧
              f.relativePath = mkRel e'.name) ∧
          (∀ sd ∈ res.2.1, sd ∈ subdirs ∨
            ∃ e' ∈ e :: rest, e'.isDirectory = true ∧ sd.path = mkFull e'.name) := by
      intro results' subdirs' count' visited' hrec hres hsub
      obtain ⟨h1, h2⟩ := ih count' visited' results' subdirs' res hrec
      constructor
      · intro f hf
        rcases h1 f hf with hin | ⟨e', he', hflag, hrel⟩
        · exact hres f hin
        · exact Or.inr ⟨e', List.mem_cons_of_mem e he', hflag, hrel⟩
      · intro sd hsd
        rcases h2 sd hsd with hin | ⟨e', he', hflag, hpath⟩
        · exact hsub sd hin
        · exact Or.inr ⟨e', List.mem_cons_of_mem e he', hflag, hpath⟩
    split at h
    · -- NUL-name skip
      exact weaken _ _ _ _ h (fun f hf => Or.inl hf) (fun sd hsd => Or.inl hsd)
    · split at h
      · -- ignore skip
        exact weaken _ _ _ _ h (fun f hf => Or.inl hf) (fun sd hsd => Or.inl hsd)
      · split at h
        · -- max-files failure
          simp at h
        · -- counted; with followSymlinks = false the visit step is a no-op
          split at h
          · -- directory dirent
            rename_i hdir
            split at h
            · -- schedule recursion
              refine weaken _ _ _ _ h ?_ ?_
              · intro f hf
                rcases List.mem_append.mp hf with hin | hnew
                · exact Or.inl hin
                · refine Or.inr ⟨e, List.mem_cons_self e rest, ?_, ?_⟩
                  · simp [hdir]
                  · simp at hnew
                    simp [hnew]
              · intro sd hsd
                rcases List.mem_append.mp hsd with hin | hnew
                · exact Or.inl hin
                · refine Or.inr ⟨e, List.mem_cons_self e rest, hdir, ?_⟩
                  simp at hnew
                  simp [hnew]
            · -- max-depth failure
              simp at h
          · split at h
            · -- file dirent
              rename_i hfile
              refine weaken _ _ _ _ h ?_ (fun sd hsd => Or.inl hsd)
              intro f hf
              rcases List.mem_append.mp hf with hin | hnew
              · exact Or.inl hin
              · refine Or.inr ⟨e, List.mem_cons_self e rest, ?_, ?_⟩
                · simp [hfile]
                · simp at hnew
                  simp [hnew]
            · -- neither directory nor file (the symlink case): nothing recorded
              exact weaken _ _ _ _ h (fun f hf => Or.inl hf) (fun sd hsd => Or.inl hsd)

/-- Witness for the amended C3 at a concrete run: one directory, one
symlink, one file; the results hold entries only for the directory and
the file. -/
theorem c3_witness :
    (∀ f ∈ ([{ path := "/r/d", relativePath := "d", isDirectory := true,
                isSymlink := false, depth := 1 },
              { path := "/r/f.ts", relativePath := "f.ts", isDirectory := false,
                isSymlink := false, depth := 1,
                mtimeMs := none, size := none }] : List FileEntry),
      f ∈ ([] : List FileEntry) ∨
        ∃ e ∈ [({ name := "d", isDirectory := true, isFile := false,
                  isSymbolicLink := false } : Dirent),
               { name := "link", isDirectory := false, isFile := false,
                 isSymbolicLink := true },
               { name := "f.ts", isDirectory := false, isFile := true,
                 isSymbolicLink := false }],
          (e.isDirectory || e.isFile) = true ∧ f.relativePath = e.name) ∧
    (∀ sd ∈ ([{ path := "/r/d", depth := 1 }] : List SubdirTask),
      sd ∈ ([] : List SubdirTask) ∨
        ∃ e ∈ [({ name := "d", isDirectory := true, isFile := false,
                  isSymbolicLink := false } : Dirent),
               { name := "link", isDirectory := false, isFile := false,
                 isSymbolicLink := true },
               { name := "f.ts", isDirectory := false, isFile := true,
                 isSymbolicLink := false }],
          e.isDirectory = true ∧ sd.path = "/r/" ++ e.name) :=
  c3_amended_symlinks_skipped 100 100000 (fun _ => false) (fun n => "/r/" ++ n)
    (fun n => n) (fun _ => none) (fun _ => (none, none)) 0
    [{ name := "d", isDirectory := true, isFile := false, isSymbolicLink := false },
     { name := "link", isDirectory := false, isFile := false, isSymbolicLink := true },
     { name := "f.ts", isDirectory := false, isFile := true, isSymbolicLink := false }]
    0 [] [] [] _ rfl

/-! ## Claim C5: `many` versus `param` — pattern/case check order -/

unseal globChars globSegs collapseSlashes in
/-- C5 counterexample: a `many` node configured with both
`case: kebab` and `pattern: "*.ts"`, checked against a parent whose only
not-yet-matched direct child is `Bad_File.md` — a name that violates the
case style AND fails the pattern.  The claim says the child receives a
naming violation; the checker produces NO violation at all: in a `many`
node the pattern filter runs before the case check, so the child is
skipped first. -/
theorem c5_counterexample :
    checkLayoutNode pureGM ctxMany 5 manyNodeC "src" ⟨[], []⟩ = (false, ⟨[], []⟩) := by
  decide

/-- C5 amended: the `many` traversal is NOT identical to `param` in the
pattern/case interplay — the order of the two checks is swapped.  For a
`many` node with both `pattern` and `case`, a not-yet-matched,
not-yet-seen direct child whose name (i) fails the pattern is skipped
before the case check and receives no naming violation, while one that
(ii) passes the pattern and violates the case style receives the naming
violation (and is consumed).  (iii) In a `param` node, by contrast, the
same pattern-failing, case-violating child still receives the naming
violation before being skipped. -/
theorem c5_amended_many_pattern_before_case (gm : GM) (ctx : CheckCtx)
    (recurse : LayoutNode → String → EngSt → Bool × EngSt)
    (node : LayoutNode) (parentPath pre name fullPath : String)
    (entry : FileEntry) (rest : List FileEntry) (seen : List String) (count : Nat)
    (st : EngSt) (p : String) (cs : CaseStyle)
    (hstart : startsWithS entry.relativePath pre = true)
    (hname : firstSeg (dropS entry.relativePath (lenS pre)) = name)
    (hname0 : name ≠ "")
    (hseen : seen.contains name = false)
    (hfull : (if parentPath ≠ "" then parentPath ++ "/" ++ name else name) = fullPath)
    (hmatched : isMatched st fullPath = false)
    (hpat : truthyStr node.pattern = some p)
    (hcase : node.caseStyle = some cs) :
    (matchesWithBracesG gm name p = false →
      manyLoop gm ctx recurse node parentPath pre (entry :: rest) seen count st =
        manyLoop gm ctx recurse node parentPath pre rest (seen ++ [name]) count st) ∧
    (matchesWithBracesG gm name p = true → validateCase name cs = false →
      manyLoop gm ctx recurse node parentPath pre (entry :: rest) seen count st =
        manyLoop gm ctx recurse node parentPath pre rest (seen ++ [name]) (count + 1)
          (match node.child with
           | some ch =>
             (recurse ch fullPath
               (addViolationFull ctx st fullPath "naming" ("expected " ++ getCaseName cs)
                 none (some name) (some [suggestCase name cs]))).2
           | none =>
             markMatched
               (addViolationFull ctx st fullPath "naming" ("expected " ++ getCaseName cs)
                 none (some name) (some [suggestCase name cs])) fullPath)) ∧
    (matchesWithBracesG gm name p = false → validateCase name cs = false →
      ∀ found : Bool,
        paramLoop gm ctx recurse node parentPath pre (entry :: rest) found st =
          paramLoop gm ctx recurse node parentPath pre rest found
            (addViolationFull ctx st fullPath "naming" ("expected " ++ getCaseName cs)
              none (some name) (some [suggestCase name cs]))) := by
  refine ⟨?_, ?_, ?_⟩
  · intro hm
    simp only [manyLoop, hstart, hname, hname0, hseen, hfull, hmatched, hpat, hcase, hm,
      Bool.not_true, Bool.false_eq_true, if_false, Bool.not_false, if_true]
  · intro hm hv
    simp only [manyLoop, hstart, hname, hname0, hseen, hfull, hmatched, hpat, hcase, hm, hv,
      Bool.not_true, Bool.false_eq_true, if_false, Bool.not_false, if_true]
  · intro hm hv found
    simp only [paramLoop, hstart, hname, hname0, hseen, hfull, hmatched, hpat, hcase, hm, hv,
      Bool.not_true, Bool.false_eq_true, if_false, Bool.not_false, if_true]

unseal globChars globSegs collapseSlashes in
/-- Witness for the amended C5 at the concrete `Bad_File.md` context:
part (i) applied to the single entry under `src`. -/
theorem c5_witness :
    manyLoop pureGM ctxMany (fun _ _ s => (false, s)) manyNodeC "src" "src/"
        [fe "src/Bad_File.md"] [] 0 ⟨[], []⟩ =
      manyLoop pureGM ctxMany (fun _ _ s => (false, s)) manyNodeC "src" "src/"
        [] ["Bad_File.md"] 0 ⟨[], []⟩ :=
  (c5_amended_many_pattern_before_case pureGM ctxMany (fun _ _ s => (false, s))
    manyNodeC "src" "src/" "Bad_File.md" "src/Bad_File.md" (fe "src/Bad_File.md")
    [] [] 0 ⟨[], []⟩ "*.ts" .kebab (by decide) (by decide) (by decide) (by decide)
    (by decide) (by decide) (by decide) (by decide)).1 (by decide)

/-! ## Claim C6: basename patterns -/

/-- JS `split` never returns an empty array. -/
theorem splitCharsOnSlash_ne_nil : ∀ l : List Char, splitCharsOnSlash l ≠ [] := by
  intro l
  induction l with
  | nil => simp [splitCharsOnSlash]
  | cons c rest ih =>
    by_cases hc : c = '/'
    · subst hc; simp [splitCharsOnSlash]
    · simp only [splitCharsOnSlash, hc]
      split <;> simp

/-- A slash-free string splits into the single segment that is itself. -/
theorem splitCharsOnSlash_single :
    ∀ l : List Char, '/' ∉ l → splitCharsOnSlash l = [l] := by
  intro l
  induction l with
  | nil => intro _; rfl
  | cons c rest ih =>
    intro hl
    have hc : c ≠ '/' := fun h => hl (h ▸ List.mem_cons_self c rest)
    have hrest : '/' ∉ rest := fun h => hl (List.mem_cons_of_mem c h)
    simp [splitCharsOnSlash, hc, ih hrest]

/-- Conversely, a single-segment split forces equality. -/
theorem splitCharsOnSlash_eq_single :
    ∀ l m : List Char, splitCharsOnSlash l = [m] → l = m := by
  intro l
  induction l with
  | nil =>
    intro m h
    simp [splitCharsOnSlash] at h
    simp [h]
  | cons c rest ih =>
    intro m h
    by_cases hc : c = '/'
    · subst hc
      simp only [splitCharsOnSlash] at h
      have hne := splitCharsOnSlash_ne_nil rest
      simp at h
      exact absurd h.2 hne
    · simp only [splitCharsOnSlash, hc] at h
      cases hsp : splitCharsOnSlash rest with
      | nil => exact absurd hsp (splitCharsOnSlash_ne_nil rest)
      | cons s ss =>
        rw [hsp] at h
        simp at h
        obtain ⟨hm, hss⟩ := h
        have := ih s (by rw [hsp, hss])
        rw [this, hm]

theorem splitSegs_ne_nil (q : String) : splitSegs q ≠ [] := by
  unfold splitSegs
  simp only [ne_eq, List.map_eq_nil_iff]
  exact splitCharsOnSlash_ne_nil q.data

theorem ofChars_data (s : String) : ofChars s.data = s := rfl

theorem splitSegs_single (p : String) (h : containsC p '/' = false) :
    splitSegs p = [p] := by
  have hmem : '/' ∉ p.data := by simpa [containsC] using h
  unfold splitSegs
  rw [splitCharsOnSlash_single p.data hmem]
  simp [ofChars_data]

theorem splitSegs_eq_single {q m : String} (h : splitSegs q = [m]) : q = m := by
  unfold splitSegs at h
  cases hsp : splitCharsOnSlash q.data with
  | nil => exact absurd hsp (splitCharsOnSlash_ne_nil q.data)
  | cons l ls =>
    rw [hsp] at h
    simp at h
    have hq : q.data = l := splitCharsOnSlash_eq_single q.data l (by rw [hsp, h.2])
    rw [← h.1, ← hq, ofChars_data]

theorem splitSegs_dstar (p : String) :
    splitSegs ("**/" ++ p) = "**" :: splitSegs p := by
  have hd : ("**/" ++ p).data = '*' :: '*' :: '/' :: p.data := by
    have h1 : ("**/" ++ p).data = ("**/" : String).data ++ p.data := String.data_append _ _
    rw [h1]
    rfl
  unfold splitSegs
  rw [hd]
  cases hsp : splitCharsOnSlash p.data with
  | nil => exact absurd hsp (splitCharsOnSlash_ne_nil p.data)
  | cons s ss => simp [splitCharsOnSlash, hsp, ofChars]

/-- A pattern `["**", p]` (with `p` itself not the globstar) matches a
nonempty segment list exactly when `p` matches its last segment. -/
theorem globSegs_dstar {p : String} (hp : p ≠ "**") :
    ∀ (ss : List String) (s : String),
      globSegs ["**", p] (s :: ss) = segMatch p (ss.getLastD s) := by
  intro ss
  induction ss with
  | nil =>
    intro s
    simp [globSegs, hp]
  | cons s' ss' ih =>
    intro s
    rw [List.getLastD_cons]
    rw [← ih s']
    simp [globSegs, hp]

/-- With no metacharacter in the pattern, single-segment glob matching is
literal equality. -/
theorem globChars_literal :
    ∀ ps cs : List Char, (∀ c ∈ ps, ¬c = '*' ∧ ¬c = '?' ∧ ¬c = '[') →
      (globChars ps cs = true ↔ ps = cs) := by
  intro ps
  induction ps with
  | nil =>
    intro cs _
    cases cs <;> simp [globChars]
  | cons p ps' ih =>
    intro cs hmeta
    obtain ⟨h1, h2, h3⟩ := hmeta p (List.mem_cons_self p ps')
    have hrest := fun c hc => hmeta c (List.mem_cons_of_mem p hc)
    cases cs with
    | nil => simp [globChars, h1, h2, h3]
    | cons c cs' =>
      simp [globChars, h1, h2, h3, ih cs' hrest]

theorem segMatch_literal {p : String} (hng : hasGlobChar p = false) (s : String) :
    segMatch p s = true ↔ p = s := by
  have hmeta : ∀ c ∈ p.data, ¬c = '*' ∧ ¬c = '?' ∧ ¬c = '[' := by
    intro c hc
    unfold hasGlobChar at hng
    rw [List.any_eq_false] at hng
    have h := hng c hc
    simp at h
    exact ⟨h.1.1.1, h.1.1.2, h.1.2⟩
  unfold segMatch
  rw [globChars_literal p.data s.data hmeta]
  exact ⟨fun h => String.ext h, fun h => h ▸ rfl⟩

theorem stripTrailingSlash_no_slash {p : String} (h : containsC p '/' = false) :
    stripTrailingSlashS p = p := by
  have hmem : '/' ∉ p.data := by simpa [containsC] using h
  have hend : endsWithS p "/" = false := by
    unfold endsWithS
    cases hrev : p.data.reverse with
    | nil => rfl
    | cons c rest =>
      have hc : c ≠ '/' := by
        intro he
        refine hmem ?_
        rw [← List.mem_reverse, hrev, he]
        exact List.mem_cons_self _ _
      show List.isPrefixOf ['/'] (c :: rest) = false
      simp [List.isPrefixOf, Ne.symm hc]
  unfold stripTrailingSlashS
  rw [hend]
  simp

theorem normalizePattern_expand {p : String} (hslash : containsC p '/' = false)
    (hneg : startsWithS p "!" = false) (hds : startsWithS p "**" = false)
    (hglob : hasGlobChar p = true) :
    normalizePattern p = "**/" ++ p := by
  unfold normalizePattern
  rw [stripTrailingSlash_no_slash hslash]
  simp [hslash, hneg, hds, hglob]

theorem normalizePattern_id_noglob {p : String} (hslash : containsC p '/' = false)
    (hneg : startsWithS p "!" = false) (hglobF : hasGlobChar p = false) :
    normalizePattern p = p := by
  unfold normalizePattern
  rw [stripTrailingSlash_no_slash hslash]
  simp [hslash, hneg, hglobF]

theorem startsWith_dstar_bang (p : String) :
    startsWithS ("**/" ++ p) "!" = false := by
  have hd : ("**/" ++ p).data = '*' :: '*' :: '/' :: p.data := by
    have h1 : ("**/" ++ p).data = ("**/" : String).data ++ p.data := String.data_append _ _
    rw [h1]
    rfl
  unfold startsWithS
  rw [hd]
  show List.isPrefixOf ['!'] _ = false
  simp [List.isPrefixOf]

/-- C6 amended: for every glob pattern with no `/` that is neither a
negation pattern (leading `!`) nor already `**`-prefixed: if it contains
a metacharacter (`*`, `?`, `[`, `]`), matching is depth-independent — it
matches a path exactly when it matches the path's basename; if it
contains no metacharacter (and is nonempty), it matches only the path
whose normalized form is exactly the pattern.  (Negation patterns refute
the literal direction of the original claim and `**`-prefixed
basename-only patterns its metacharacter direction, see the
counterexample.) -/
theorem c6_amended_basename_patterns (p : String)
    (hslash : containsC p '/' = false)
    (hneg : startsWithS p "!" = false)
    (hds : startsWithS p "**" = false) :
    (hasGlobChar p = true →
      ∀ path : String, matchesP path p = segMatch p (getBasename path)) ∧
    (hasGlobChar p = false → p ≠ "" →
      ∀ path : String, (matchesP path p = true ↔ normalizePath path = p)) := by
  constructor
  · intro hglob path
    have hpne : p ≠ "" := by
      intro he
      rw [he] at hglob
      exact absurd hglob (by decide)
    have hpds : p ≠ "**" := by
      intro he
      rw [he] at hds
      exact absurd hds (by decide)
    unfold matchesP matchesG pureGM compiledMatcher rawCompile picomatchModel
    rw [if_neg hpne, normalizePattern_expand hslash hneg hds hglob]
    rw [startsWith_dstar_bang, if_neg (by simp), splitSegs_dstar,
      splitSegs_single p hslash]
    cases hsegs : splitSegs (normalizePath path) with
    | nil => exact absurd hsegs (splitSegs_ne_nil _)
    | cons s ss =>
      rw [globSegs_dstar hpds ss s]
      unfold getBasename
      rw [hsegs, List.getLastD_cons]
  · intro hglobF hpne path
    have hpds : p ≠ "**" := by
      intro he
      rw [he] at hglobF
      exact absurd hglobF (by decide)
    unfold matchesP matchesG pureGM compiledMatcher rawCompile picomatchModel
    rw [if_neg hpne, normalizePattern_id_noglob hslash hneg hglobF]
    rw [if_neg (by simp [hneg]), splitSegs_single p hslash]
    constructor
    · intro hm
      cases hsegs : splitSegs (normalizePath path) with
      | nil => exact absurd hsegs (splitSegs_ne_nil _)
      | cons s ss =>
        rw [hsegs] at hm
        cases ss with
        | nil =>
          simp [globSegs, hpds] at hm
          have hps : p = s := (segMatch_literal hglobF s).mp hm
          exact splitSegs_eq_single (by rw [hsegs, hps])
        | cons s2 ss2 =>
          simp [globSegs, hpds] at hm
    · intro hq
      rw [hq, splitSegs_single p hslash]
      simp [globSegs, hpds]
      exact (segMatch_literal hglobF p).mpr rfl

unseal globChars globSegs collapseSlashes in
/-- C6 counterexample: (i) `"!a"` contains no `*`/`?`/`[...]`
metacharacter, yet it matches the relative path `"b"` (a negation
pattern matches everything except `"a"`), refuting "a pattern with no
metacharacter matches only the exact relative path equal to the
pattern"; (ii) `"**a"` contains a metacharacter and no `/`, yet it does
not match `"x/ya"` although it matches that path's basename `"ya"`
(normalizePattern does not `**/`-expand a pattern already starting with
`**`), refuting depth-independence. -/
theorem c6_counterexample :
    (matchesP "b" "!a" = true ∧ ("b" : String) ≠ "!a") ∧
    (matchesP "x/ya" "**a" = false ∧ segMatch "**a" "ya" = true) := by
  refine ⟨⟨by decide, by decide⟩, by decide, by decide⟩

unseal globChars globSegs collapseSlashes in
/-- Witness for the amended C6 at the specification's examples:
`*.log` at three depths (via the theorem, reduced to basename matching,
plus the evaluated truth values), and `package.json` matching exactly
itself. -/
theorem c6_witness :
    matchesP "src/debug.log" "*.log" = segMatch "*.log" (getBasename "src/debug.log") ∧
    matchesP "a/b/c/debug.log" "*.log" = segMatch "*.log" (getBasename "a/b/c/debug.log") ∧
    (matchesP "src/package.json" "package.json" = true ↔
      normalizePath "src/package.json" = "package.json") ∧
    (matchesP "package.json" "package.json" = true ↔
      normalizePath "package.json" = "package.json") ∧
    matchesP "debug.log" "*.log" = true ∧
    matchesP "src/debug.log" "*.log" = true ∧
    matchesP "a/b/c/debug.log" "*.log" = true ∧
    matchesP "package.json" "package.json" = true ∧
    matchesP "src/package.json" "package.json" = false :=
  ⟨(c6_amended_basename_patterns "*.log" (by decide) (by decide) (by decide)).1
      (by decide) "src/debug.log",
   (c6_amended_basename_patterns "*.log" (by decide) (by decide) (by decide)).1
      (by decide) "a/b/c/debug.log",
   (c6_amended_basename_patterns "package.json" (by decide) (by decide) (by decide)).2
      (by decide) (by decide) "src/package.json",
   (c6_amended_basename_patterns "package.json" (by decide) (by decide) (by decide)).2
      (by decide) (by decide) "package.json",
   by decide, by decide, by decide, by decide, by decide⟩

/-! ## Claim C8: `check` is deterministic across runs -/

/-- On a well-formed cache, a hit returns exactly the compilation of the
(normalized) pattern. -/
theorem cacheGet_wf {c : MatcherFnCache} (hc : WFCache c) {np : String}
    {m : String → Bool} (h : c.get np = some m) : m = rawCompile np := by
  unfold MatcherCache.get at h
  cases hf : c.entries.find? (fun kv => kv.1 = np) with
  | none => rw [hf] at h; simp at h
  | some kv =>
    rw [hf] at h
    have h2 : kv.2 = m := by simpa using h
    have hmem := List.mem_of_find?_eq_some hf
    have hkey : kv.1 = np := by simpa using List.find?_some hf
    rw [← h2, hc kv hmem, hkey]

/-- The matcher source read off any well-formed cache state is the pure
matcher source: a cache hit and a cache miss return the same compiled
matcher. -/
theorem gmOfCache_eq_pure {c : MatcherFnCache} (hc : WFCache c) :
    gmOfCache c = pureGM := by
  funext pattern
  unfold gmOfCache getCachedMatcherC pureGM compiledMatcher
  by_cases hp : pattern = ""
  · simp [hp]
  · simp only [hp, if_false]
    cases hg : c.get (normalizePattern pattern) with
    | none => simp [hg]
    | some m => simp [hg, cacheGet_wf hc hg]

theorem mem_mapSet {l : List (String × α)} {k : String} {v : α} {kv : String × α}
    (h : kv ∈ mapSet l k v) : kv ∈ l ∨ kv = (k, v) := by
  induction l with
  | nil => simp [mapSet] at h; simp [h]
  | cons kv' rest ih =>
    by_cases hk : kv'.1 = k
    · simp only [mapSet, if_pos hk] at h
      rcases List.mem_cons.mp h with he | hrest
      · right
        rw [he]
        rw [hk]
      · exact Or.inl (List.mem_cons_of_mem kv' hrest)
    · simp only [mapSet, if_neg hk] at h
      rcases List.mem_cons.mp h with he | hrest
      · exact Or.inl (he ▸ List.mem_cons_self kv' rest)
      · rcases ih hrest with hin | heq
        · exact Or.inl (List.mem_cons_of_mem kv' hin)
        · exact Or.inr heq

/-- Inserting the compilation of a key preserves cache well-formedness
(eviction only removes entries). -/
theorem WFCache_set {c : MatcherFnCache} (hc : WFCache c) (k : String) :
    WFCache (c.set k (rawCompile k)) := by
  intro kv hkv
  unfold MatcherCache.set MatcherCache.evictIfNeeded at hkv
  by_cases hfull : c.entries.length ≥ c.maxSize
  · simp only [hfull, if_pos] at hkv
    rcases mem_mapSet hkv with hin | heq
    · exact hc kv (List.mem_of_mem_drop hin)
    · rw [heq]
  · simp only [hfull, if_neg, not_false_iff] at hkv
    rcases mem_mapSet hkv with hin | heq
    · exact hc kv hin
    · rw [heq]

/-- One `getCachedMatcher` call preserves cache well-formedness. -/
theorem WFCache_step {c : MatcherFnCache} (hc : WFCache c) (pattern : String) :
    WFCache (getCachedMatcherC c pattern).2 := by
  unfold getCachedMatcherC
  by_cases hp : pattern = ""
  · simpa [hp] using hc
  · simp only [hp, if_false]
    cases hg : c.get (normalizePattern pattern) with
    | none => simpa [hg] using WFCache_set hc (normalizePattern pattern)
    | some m => simpa [hg] using hc

/-- Any sequence of `getCachedMatcher` calls preserves cache
well-formedness. -/
theorem WFCache_fold (pats : List String) :
    ∀ c : MatcherFnCache, WFCache c →
      WFCache (pats.foldl (fun cc pat => (getCachedMatcherC cc pat).2) c) := by
  induction pats with
  | nil => intro c hc; simpa using hc
  | cons p rest ih =>
    intro c hc
    simpa using ih (getCachedMatcherC c p).2 (WFCache_step hc p)

/-- C8: `check` is deterministic across runs.  The only mutable state
shared between runs is the module-level matcher cache; starting from any
well-formed cache state `c`, (1) the cache state left behind by any
sequence of matcher lookups (such as those a first run of `check`
performs) yields exactly the same `check` result on a second run, and
(2) more generally, the outcome is identical for every well-formed cache
state, so no hidden carried-over state can change the violations of the
second run. -/
theorem c8_check_deterministic (config : RepoLintConfig) (files : List FileEntry)
    (c : MatcherFnCache) (hc : WFCache c) :
    (∀ pats : List String,
      check (gmOfCache (pats.foldl (fun cc pat => (getCachedMatcherC cc pat).2) c))
          config files =
        check (gmOfCache c) config files) ∧
    (∀ c' : MatcherFnCache, WFCache c' →
      check (gmOfCache c') config files = check (gmOfCache c) config files) := by
  constructor
  · intro pats
    rw [gmOfCache_eq_pure (WFCache_fold pats c hc), gmOfCache_eq_pure hc]
  · intro c' hc'
    rw [gmOfCache_eq_pure hc', gmOfCache_eq_pure hc]

/-- Witness for C8: the strict-mode example run twice, from the empty
cache and from a warmed one-entry cache. -/
theorem c8_witness :
    (∀ pats : List String,
      check (gmOfCache (pats.foldl (fun cc pat => (getCachedMatcherC cc pat).2)
            (MatcherCache.empty (String → Bool) 1000))) cfgStrict entriesStrict =
        check (gmOfCache (MatcherCache.empty (String → Bool) 1000))
          cfgStrict entriesStrict) ∧
    (∀ c' : MatcherFnCache, WFCache c' →
      check (gmOfCache c') cfgStrict entriesStrict =
        check (gmOfCache (MatcherCache.empty (String → Bool) 1000))
          cfgStrict entriesStrict) :=
  c8_check_deterministic cfgStrict entriesStrict
    (MatcherCache.empty (String → Bool) 1000)
    (by intro kv hkv; simp [MatcherCache.empty] at hkv)

/-! ## Claim C2: strict-mode unexpected-file sweep -/

/-- The sweep loop appends exactly one "unexpected file" violation of rule
`layout` for each entry neither in the matched-set snapshot nor covered
by the ignore patterns, in entry order, and changes nothing else. -/
theorem sweepLoop_eq (gm : GM) (ctx : CheckCtx) (ign : List String)
    (m : List String) :
    ∀ (files : List FileEntry) (st : EngSt),
      sweepLoop gm ctx ign m files st =
        { st with violations := st.violations ++
            ((files.filter (fun f => !m.contains f.relativePath &&
                !matchesAnyG gm f.relativePath ign)).map
              (fun f => ⟨f.relativePath, "layout", "unexpected file (not defined in layout)",
                getSeverity ctx.config.mode, none, none, none⟩)) } := by
  intro files
  induction files with
  | nil => intro st; simp [sweepLoop]
  | cons f rest ih =>
    intro st
    simp only [sweepLoop]
    by_cases hcond : (!m.contains f.relativePath &&
        !matchesAnyG gm f.relativePath ign) = true
    · rw [if_pos hcond, ih, List.filter_cons, if_pos hcond]
      simp only [addViolation, addViolationFull, List.map_cons, List.append_assoc,
        List.singleton_append]
    · rw [if_neg hcond, ih, List.filter_cons, if_neg hcond]

/-- C2: when the configured mode is `strict` and a layout is configured,
`checkLayout` first walks the layout tree and then sweeps every
(ignore-filtered) entry: the final violations are exactly the walk's
violations followed by one "unexpected file" violation of rule `layout`
(severity `error`) for each entry whose relative path is neither in the
matched set produced by the walk nor covered by the rules'
`ignorePaths` patterns. -/
theorem c2_strict_sweep (gm : GM) (ctx : CheckCtx) (fuel : Nat) (st : EngSt)
    (layout : LayoutNode)
    (hmode : ctx.config.mode = some .strict)
    (hlayout : ctx.config.layout = some layout) :
    checkLayout gm ctx fuel st =
      { (checkLayoutNode gm ctx fuel layout "" st).2 with
        violations := (checkLayoutNode gm ctx fuel layout "" st).2.violations ++
          ((ctx.files.filter (fun f =>
              !(checkLayoutNode gm ctx fuel layout "" st).2.matched.contains f.relativePath &&
              !matchesAnyG gm f.relativePath (rulesList ctx.config Rules.ignorePaths))).map
            (fun f => ⟨f.relativePath, "layout", "unexpected file (not defined in layout)",
              Severity.error, none, none, none⟩)) } := by
  unfold checkLayout
  rw [hlayout]
  simp only [hmode, reduceCtorEq, if_pos, Option.some.injEq]
  rw [sweepLoop_eq]
  simp [getSeverity, hmode]

/-- Witness for C2: the specification's example.  Layout
`{type:"dir", children:{"package.json":{}}}` against entries
`["package.json", "unexpected.ts"]` in strict mode gives exactly one
violation, for `unexpected.ts`, rule `layout`. -/
theorem c2_witness :
    checkLayout pureGM (createContext cfgStrict entriesStrict) 5 ⟨[], []⟩ =
      ⟨[⟨"unexpected.ts", "layout", "unexpected file (not defined in layout)",
          .error, none, none, none⟩], ["package.json"]⟩ ∧
    (checkPure cfgStrict entriesStrict).violations =
      [⟨"unexpected.ts", "layout", "unexpected file (not defined in layout)",
          .error, none, none, none⟩] := by
  constructor
  · rw [c2_strict_sweep pureGM (createContext cfgStrict entriesStrict) 5 ⟨[], []⟩
      (dnode [("package.json", plainNode)]) rfl rfl]
    rfl
  · rfl

end RepoLint
